import Mathlib

/-!
# ExactPricingModels: European option pricing

A shallow embedding of `Option.hpp`, `Option.cpp` and `EuropeanOption.cpp`, and the
properties of the pricing engine proved on it.

The C++ arithmetic on `double` is read over a field `α`; the embedding is generic in `α`
so that the program's own definitions stay executable (for instance over `ℚ`), and the
analytic statements are made at `α = ℝ` with the real `sqrt`, `log`, `exp` and the
standard normal distribution.
-/

namespace ExactPricingModels

/-! ## External numerical library -/

/-- The functions the program takes from `<cmath>` and `boost::math`:
`sqrt`, `log`, `exp`, and `cdf` / `pdf` of `normal_distribution<double>(0.0, 1.0)`. -/
structure Numerics (α : Type) where
  /-- The function `sqrt` of cmath. -/
  sqrt : α → α
  /-- The function `log` of cmath. -/
  log : α → α
  /-- The function `exp` of cmath. -/
  exp : α → α
  /-- The function `boost::math::cdf(normal_distribution<double>(0.0, 1.0), x)`. -/
  cdf : α → α
  /-- The function `boost::math::pdf(normal_distribution<double>(0.0, 1.0), x)`. -/
  pdf : α → α

/-- The standard normal cumulative distribution function `Φ`. -/
noncomputable def Phi (x : ℝ) : ℝ :=
  ProbabilityTheory.cdf (ProbabilityTheory.gaussianReal 0 1) x

/-- The standard normal density `φ`. -/
noncomputable def phi (x : ℝ) : ℝ :=
  ProbabilityTheory.gaussianPDFReal 0 1 x

/-- The numerical library read over the reals. -/
noncomputable def realNumerics : Numerics ℝ where
  sqrt := Real.sqrt
  log := Real.log
  exp := Real.exp
  cdf := Phi
  pdf := phi

/-! ## Option.hpp -/

/-- The enumeration `enum CallOrPut{ CALL, PUT }`. -/
inductive CallOrPut where
  | CALL
  | PUT
  deriving DecidableEq, Repr

/-- The enumeration `enum UnderlyingType{ STOCK, DIVIDEND, FUTURES, CURRENCY }`. -/
inductive UnderlyingType where
  | STOCK
  | DIVIDEND
  | FUTURES
  | CURRENCY
  deriving DecidableEq, Repr

/-- The enumeration `enum Parameter{ UNDERLYING, STRIKE, TIME, RATE, SIGMA, CARRY }`.
An unscoped enumeration with six enumerators has the value range `0..7`, so a
`Parameter` can hold two values that are none of the enumerators. -/
abbrev Parameter : Type := Fin 8

/-- Enumerator `UNDERLYING` (value 0). -/
abbrev UNDERLYING : Parameter := 0
/-- Enumerator `STRIKE` (value 1). -/
abbrev STRIKE : Parameter := 1
/-- Enumerator `TIME` (value 2). -/
abbrev TIME : Parameter := 2
/-- Enumerator `RATE` (value 3). -/
abbrev RATE : Parameter := 3
/-- Enumerator `SIGMA` (value 4). -/
abbrev SIGMA : Parameter := 4
/-- Enumerator `CARRY` (value 5). -/
abbrev CARRY : Parameter := 5

/-- The attributes of `class Option`; `class EuropeanOption : public Option` adds none. -/
structure EuropeanOption (α : Type) where
  /-- Underlying asset price. -/
  m_S : α
  /-- Strike price. -/
  m_K : α
  /-- Time to maturity. -/
  m_T : α
  /-- Risk-free rate. -/
  m_r : α
  /-- Constant volatility. -/
  m_s : α
  /-- Cost of carry. -/
  m_b : α
  /-- Call or Put. -/
  call_or_put : CallOrPut
  /-- Underlying asset class. -/
  underlying_type : UnderlyingType
  /-- Dividend. -/
  m_q : α
  /-- Foreign risk-free rate. -/
  m_R : α

variable {α : Type}

/-- Getter `double S() const`. -/
@[reducible] def EuropeanOption.S (o : EuropeanOption α) : α := o.m_S
/-- Getter `double K() const`. -/
@[reducible] def EuropeanOption.K (o : EuropeanOption α) : α := o.m_K
/-- Getter `double T() const`. -/
@[reducible] def EuropeanOption.T (o : EuropeanOption α) : α := o.m_T
/-- Getter `double r() const`. -/
@[reducible] def EuropeanOption.r (o : EuropeanOption α) : α := o.m_r
/-- Getter `double s() const`. -/
@[reducible] def EuropeanOption.s (o : EuropeanOption α) : α := o.m_s
/-- Getter `double b() const`. -/
@[reducible] def EuropeanOption.b (o : EuropeanOption α) : α := o.m_b
/-- Getter `double q() const`. -/
@[reducible] def EuropeanOption.q (o : EuropeanOption α) : α := o.m_q
/-- Getter `double R() const`. -/
@[reducible] def EuropeanOption.R (o : EuropeanOption α) : α := o.m_R

/-! ## Option.cpp -/

/-- Parameter constructor `Option::Option(underlying_price, ..., foreign_rate)`, reached through
`EuropeanOption::EuropeanOption` which only forwards its nine arguments (the header gives
`dividend_yield` and `foreign_rate` the default 0). The carry cost `m_b` is set by the
`switch (underlying_type)`. -/
def EuropeanOption.construct [Field α]
    (underlying_price strike_price time_to_maturity riskfree_rate constant_volatility : α)
    (call_or_put : CallOrPut) (underlying_type : UnderlyingType)
    (dividend_yield foreign_rate : α) : EuropeanOption α where
  m_S := underlying_price
  m_K := strike_price
  m_T := time_to_maturity
  m_r := riskfree_rate
  m_s := constant_volatility
  call_or_put := call_or_put
  underlying_type := underlying_type
  m_q := dividend_yield
  m_R := foreign_rate
  m_b :=
    match underlying_type with
    | .STOCK => riskfree_rate
    | .DIVIDEND => riskfree_rate - dividend_yield
    | .FUTURES => 0
    | .CURRENCY => riskfree_rate - foreign_rate

/-! ## EuropeanOption.cpp -/

/-- Helper `double EuropeanOption::PriceAsCall() const`. -/
def EuropeanOption.PriceAsCall [Field α] (m : Numerics α) (o : EuropeanOption α) : α :=
  let temp := o.s * m.sqrt o.T
  let d1 := (m.log (o.S / o.K) + (o.b + (o.s * o.s / 2)) * o.T) / temp
  let Nd1 := m.cdf d1
  let d2 := d1 - temp
  let Nd2 := m.cdf d2
  let SebrT := o.S * m.exp ((o.b - o.r) * o.T)
  let KerT := o.K * m.exp (-o.r * o.T)
  SebrT * Nd1 - KerT * Nd2

/-- Helper `double EuropeanOption::PriceAsPut() const`. -/
def EuropeanOption.PriceAsPut [Field α] (m : Numerics α) (o : EuropeanOption α) : α :=
  let temp := o.s * m.sqrt o.T
  let d1 := (m.log (o.S / o.K) + (o.b + (o.s * o.s / 2)) * o.T) / temp
  let Nd1 := m.cdf (-d1)
  let d2 := d1 - temp
  let Nd2 := m.cdf (-d2)
  let SebrT := o.S * m.exp ((o.b - o.r) * o.T)
  let KerT := o.K * m.exp (-o.r * o.T)
  KerT * Nd2 - SebrT * Nd1

/-- Method `double EuropeanOption::Price() const`: price by the Call/Put attribute. -/
def EuropeanOption.Price [Field α] (m : Numerics α) (o : EuropeanOption α) : α :=
  if o.call_or_put = CallOrPut.CALL then o.PriceAsCall m else o.PriceAsPut m

/-- Method `vector<double> EuropeanOption::Price(double price) const`: the price by put-call
parity and the parity difference. -/
def EuropeanOption.PriceViaPutCallParity [Field α] (m : Numerics α) (o : EuropeanOption α)
    (price : α) : List α :=
  let temp := o.K * m.exp (-o.r * o.T)
  let parity_price :=
    if o.call_or_put = CallOrPut.CALL then price + temp - o.S else price + o.S - temp
  let parity_difference :=
    if o.call_or_put = CallOrPut.CALL then price + temp - (parity_price + o.S)
    else parity_price + temp - (price + o.S)
  [parity_price, parity_difference]

/-- Helper `double EuropeanOption::PriceAsCall(i_S, i_K, i_T, i_r, i_s, i_b) const`, used for
mesh pricing: an argument equal to `-1` stands for the option's own attribute. -/
def EuropeanOption.PriceAsCall6 [Field α] [DecidableEq α] (m : Numerics α)
    (o : EuropeanOption α) (i_S i_K i_T i_r i_s i_b : α) : α :=
  let S := if i_S = -1 then o.S else i_S
  let K := if i_K = -1 then o.K else i_K
  let T := if i_T = -1 then o.T else i_T
  let r := if i_r = -1 then o.r else i_r
  let s := if i_s = -1 then o.s else i_s
  let b := if i_b = -1 then o.b else i_b
  let temp := s * m.sqrt T
  let d1 := (m.log (S / K) + (b + (s * s / 2)) * T) / temp
  let Nd1 := m.cdf d1
  let d2 := d1 - temp
  let Nd2 := m.cdf d2
  let SebrT := S * m.exp ((b - r) * T)
  let KerT := K * m.exp (-r * T)
  SebrT * Nd1 - KerT * Nd2

/-- Helper `double EuropeanOption::PriceAsPut(i_S, i_K, i_T, i_r, i_s, i_b) const`, used for
mesh pricing: an argument equal to `-1` stands for the option's own attribute. -/
def EuropeanOption.PriceAsPut6 [Field α] [DecidableEq α] (m : Numerics α)
    (o : EuropeanOption α) (i_S i_K i_T i_r i_s i_b : α) : α :=
  let S := if i_S = -1 then o.S else i_S
  let K := if i_K = -1 then o.K else i_K
  let T := if i_T = -1 then o.T else i_T
  let r := if i_r = -1 then o.r else i_r
  let s := if i_s = -1 then o.s else i_s
  let b := if i_b = -1 then o.b else i_b
  let temp := s * m.sqrt T
  let d1 := (m.log (S / K) + (b + (s * s / 2)) * T) / temp
  let Nd1 := m.cdf (-d1)
  let d2 := d1 - temp
  let Nd2 := m.cdf (-d2)
  let SebrT := S * m.exp ((b - r) * T)
  let KerT := K * m.exp (-r * T)
  KerT * Nd2 - SebrT * Nd1

/-- The loop `for(double element: parameter_mesh) prices.push_back(f(element));` run on the
vector `prices`. -/
def pushBackEach (f : α → α) (parameter_mesh : List α) (prices : List α) : List α :=
  parameter_mesh.foldl (fun acc element => acc ++ [f element]) prices

/-- Method `vector<double> EuropeanOption::Price(vector<double>& parameter_mesh,
enum Parameter parameter) const`: price the option over an array of parameter values. -/
def EuropeanOption.PriceOverMesh [Field α] [DecidableEq α] (m : Numerics α)
    (o : EuropeanOption α) (parameter_mesh : List α) (parameter : Parameter) : List α :=
  let prices : List α := []
  let is_call : Bool := decide (o.call_or_put = CallOrPut.CALL)
  if parameter = UNDERLYING then
    if is_call then
      pushBackEach (fun element => o.PriceAsCall6 m element (-1) (-1) (-1) (-1) (-1))
        parameter_mesh prices
    else
      pushBackEach (fun element => o.PriceAsPut6 m element (-1) (-1) (-1) (-1) (-1))
        parameter_mesh prices
  else if parameter = STRIKE then
    if is_call then
      pushBackEach (fun element => o.PriceAsCall6 m (-1) element (-1) (-1) (-1) (-1))
        parameter_mesh prices
    else
      pushBackEach (fun element => o.PriceAsPut6 m (-1) element (-1) (-1) (-1) (-1))
        parameter_mesh prices
  else if parameter = TIME then
    if is_call then
      pushBackEach (fun element => o.PriceAsCall6 m (-1) (-1) element (-1) (-1) (-1))
        parameter_mesh prices
    else
      pushBackEach (fun element => o.PriceAsPut6 m (-1) (-1) element (-1) (-1) (-1))
        parameter_mesh prices
  else if parameter = RATE then
    if is_call then
      pushBackEach (fun element => o.PriceAsCall6 m (-1) (-1) (-1) element (-1) (-1))
        parameter_mesh prices
    else
      pushBackEach (fun element => o.PriceAsPut6 m (-1) (-1) (-1) element (-1) (-1))
        parameter_mesh prices
  else if parameter = SIGMA then
    if is_call then
      pushBackEach (fun element => o.PriceAsCall6 m (-1) (-1) (-1) (-1) element (-1))
        parameter_mesh prices
    else
      pushBackEach (fun element => o.PriceAsPut6 m (-1) (-1) (-1) (-1) element (-1))
        parameter_mesh prices
  else if parameter = CARRY then
    if is_call then
      pushBackEach (fun element => o.PriceAsCall6 m (-1) (-1) (-1) (-1) (-1) element)
        parameter_mesh prices
    else
      pushBackEach (fun element => o.PriceAsPut6 m (-1) (-1) (-1) (-1) (-1) element)
        parameter_mesh prices
  else
    prices

/-- Method `double EuropeanOption::Delta() const`. -/
def EuropeanOption.Delta [Field α] (m : Numerics α) (o : EuropeanOption α) : α :=
  let is_call : Bool := decide (o.call_or_put = CallOrPut.CALL)
  let temp := o.s * m.sqrt o.T
  let d1 := (m.log (o.S / o.K) + (o.b + (o.s * o.s / 2)) * o.T) / temp
  let Nd1 := m.cdf ((if is_call then 1 else -1) * d1)
  let ebrT := m.exp ((o.b - o.r) * o.T)
  (if is_call then 1 else -1) * ebrT * Nd1

/-- Method `double EuropeanOption::Gamma() const`. -/
def EuropeanOption.Gamma [Field α] (m : Numerics α) (o : EuropeanOption α) : α :=
  let is_call : Bool := decide (o.call_or_put = CallOrPut.CALL)
  let temp := o.s * m.sqrt o.T
  let d1 := (m.log (o.S / o.K) + (o.b + (o.s * o.s / 2)) * o.T) / temp
  let nd1 := m.pdf ((if is_call then 1 else -1) * d1)
  let ebrT := m.exp ((o.b - o.r) * o.T)
  (nd1 * ebrT) / (o.S * temp)

/-- Method `vector<double> EuropeanOption::Delta(vector<double>& price_mesh) const`: delta over
an array of underlying prices. -/
def EuropeanOption.DeltaOverMesh [Field α] (m : Numerics α) (o : EuropeanOption α)
    (price_mesh : List α) : List α :=
  let is_call : Bool := decide (o.call_or_put = CallOrPut.CALL)
  let deltas : List α := []
  pushBackEach
    (fun price =>
      let temp := o.s * m.sqrt o.T
      let d1 := (m.log (price / o.K) + (o.b + (o.s * o.s / 2)) * o.T) / temp
      let Nd1 := m.cdf ((if is_call then 1 else -1) * d1)
      let ebrT := m.exp ((o.b - o.r) * o.T)
      (if is_call then 1 else -1) * ebrT * Nd1)
    price_mesh deltas

/-- Method `vector<double> EuropeanOption::Gamma(vector<double>& price_mesh) const`: gamma over
an array of underlying prices. -/
def EuropeanOption.GammaOverMesh [Field α] (m : Numerics α) (o : EuropeanOption α)
    (price_mesh : List α) : List α :=
  let is_call : Bool := decide (o.call_or_put = CallOrPut.CALL)
  let gammas : List α := []
  pushBackEach
    (fun price =>
      let temp := o.s * m.sqrt o.T
      let d1 := (m.log (price / o.K) + (o.b + (o.s * o.s / 2)) * o.T) / temp
      let nd1 := m.pdf ((if is_call then 1 else -1) * d1)
      let ebrT := m.exp ((o.b - o.r) * o.T)
      (nd1 * ebrT) / (price * temp))
    price_mesh gammas

/-- Method `double EuropeanOption::DeltaApproximation(double h) const`. -/
def EuropeanOption.DeltaApproximation [Field α] [DecidableEq α] (m : Numerics α)
    (o : EuropeanOption α) (h : α) : α :=
  if o.call_or_put = CallOrPut.CALL then
    (o.PriceAsCall6 m (o.S + h) (-1) (-1) (-1) (-1) (-1)
      - o.PriceAsCall6 m (o.S - h) (-1) (-1) (-1) (-1) (-1)) / (2 * h)
  else
    (o.PriceAsPut6 m (o.S + h) (-1) (-1) (-1) (-1) (-1)
      - o.PriceAsPut6 m (o.S - h) (-1) (-1) (-1) (-1) (-1)) / (2 * h)

/-- Method `double EuropeanOption::GammaApproximation(double h) const`. -/
def EuropeanOption.GammaApproximation [Field α] [DecidableEq α] (m : Numerics α)
    (o : EuropeanOption α) (h : α) : α :=
  if o.call_or_put = CallOrPut.CALL then
    (o.PriceAsCall6 m (o.S + h) (-1) (-1) (-1) (-1) (-1)
      - (2 * o.PriceAsCall6 m o.S (-1) (-1) (-1) (-1) (-1))
      + o.PriceAsCall6 m (o.S - h) (-1) (-1) (-1) (-1) (-1)) / (h * h)
  else
    (o.PriceAsPut6 m (o.S + h) (-1) (-1) (-1) (-1) (-1)
      - (2 * o.PriceAsPut6 m o.S (-1) (-1) (-1) (-1) (-1))
      + o.PriceAsPut6 m (o.S - h) (-1) (-1) (-1) (-1) (-1)) / (h * h)

/-! ## Option.hpp: setters -/

/-- Setter `void S(double underlying_price)`. -/
def EuropeanOption.set_S (o : EuropeanOption α) (underlying_price : α) : EuropeanOption α :=
  { o with m_S := underlying_price }
/-- Setter `void K(double strike_price)`. -/
def EuropeanOption.set_K (o : EuropeanOption α) (strike_price : α) : EuropeanOption α :=
  { o with m_K := strike_price }
/-- Setter `void T(double time_to_maturity)`. -/
def EuropeanOption.set_T (o : EuropeanOption α) (time_to_maturity : α) : EuropeanOption α :=
  { o with m_T := time_to_maturity }
/-- Setter `void r(double riskfree_rate)`. -/
def EuropeanOption.set_r (o : EuropeanOption α) (riskfree_rate : α) : EuropeanOption α :=
  { o with m_r := riskfree_rate }
/-- Setter `void s(double constant_volatility)`. -/
def EuropeanOption.set_s (o : EuropeanOption α) (constant_volatility : α) : EuropeanOption α :=
  { o with m_s := constant_volatility }
/-- Setter `void b(double cost_of_carry)`. -/
def EuropeanOption.set_b (o : EuropeanOption α) (cost_of_carry : α) : EuropeanOption α :=
  { o with m_b := cost_of_carry }
/-- Setter `void CallOrPut(enum CallOrPut call_or_put)`. -/
def EuropeanOption.set_CallOrPut (o : EuropeanOption α) (call_or_put : CallOrPut) :
    EuropeanOption α :=
  { o with call_or_put := call_or_put }
/-- Setter `void UnderlyingType(enum UnderlyingType underlying_type)`. -/
def EuropeanOption.set_UnderlyingType (o : EuropeanOption α) (underlying_type : UnderlyingType) :
    EuropeanOption α :=
  { o with underlying_type := underlying_type }
/-- Setter `void q(double dividend_yield)`. -/
def EuropeanOption.set_q (o : EuropeanOption α) (dividend_yield : α) : EuropeanOption α :=
  { o with m_q := dividend_yield }
/-- Setter `void R(double foreign_rate)`. -/
def EuropeanOption.set_R (o : EuropeanOption α) (foreign_rate : α) : EuropeanOption α :=
  { o with m_R := foreign_rate }

/-! ## Helpers.hpp -/

/-- The loop `for (double start = mesh_start; start < mesh_end + 1; start += step)
mesh.push_back(start);` of `CreateMesh`, run from the loop variable `start` and the vector
`mesh`. Each iteration spends one unit of `fuel`; `none` means the fuel ran out before the loop
condition failed. -/
def CreateMeshLoop [LinearOrderedField α] (mesh_end step : α) :
    ℕ → α → List α → Option (List α)
  | 0, _, _ => none
  | fuel + 1, start, mesh =>
    if start < mesh_end + 1 then
      CreateMeshLoop mesh_end step fuel (start + step) (mesh ++ [start])
    else
      some mesh

/-- Function `std::vector<double> CreateMesh(double mesh_start, double mesh_end, double step)`:
the loop started at `mesh_start` on the empty vector. -/
def CreateMesh [LinearOrderedField α] (fuel : ℕ) (mesh_start mesh_end step : α) :
    Option (List α) :=
  CreateMeshLoop mesh_end step fuel mesh_start []

/-! ## The formulas of the specification -/

/-- The specification's `d1 = (ln(S/K) + (b + σ²/2)·T) / (σ·√T)`. -/
noncomputable def specD1 (S K T sigma b : ℝ) : ℝ :=
  (Real.log (S / K) + (b + sigma ^ 2 / 2) * T) / (sigma * Real.sqrt T)

/-- The specification's `d2 = d1 − σ·√T`. -/
noncomputable def specD2 (S K T sigma b : ℝ) : ℝ :=
  specD1 S K T sigma b - sigma * Real.sqrt T

/-- The specification's CALL price `S·e^((b−r)T)·Φ(d1) − K·e^(−rT)·Φ(d2)`. -/
noncomputable def specCallPrice (S K T r sigma b : ℝ) : ℝ :=
  S * Real.exp ((b - r) * T) * Phi (specD1 S K T sigma b)
    - K * Real.exp (-(r * T)) * Phi (specD2 S K T sigma b)

/-- The specification's PUT price `K·e^(−rT)·Φ(−d2) − S·e^((b−r)T)·Φ(−d1)`. -/
noncomputable def specPutPrice (S K T r sigma b : ℝ) : ℝ :=
  K * Real.exp (-(r * T)) * Phi (-specD2 S K T sigma b)
    - S * Real.exp ((b - r) * T) * Phi (-specD1 S K T sigma b)

/-- The specification's `sign`: `+1` for CALL, `−1` for PUT. -/
def specSign {β : Type} [Field β] (kind : CallOrPut) : β :=
  match kind with
  | CallOrPut.CALL => 1
  | CallOrPut.PUT => -1

/-- The specification's Delta `sign·e^((b−r)T)·Φ(sign·d1)`. -/
noncomputable def specDelta (kind : CallOrPut) (S K T r sigma b : ℝ) : ℝ :=
  specSign kind * Real.exp ((b - r) * T) * Phi (specSign kind * specD1 S K T sigma b)

/-- The specification's Gamma without the sign, `φ(d1)·e^((b−r)T) / (S·σ·√T)`. -/
noncomputable def specGamma (S K T r sigma b : ℝ) : ℝ :=
  phi (specD1 S K T sigma b) * Real.exp ((b - r) * T) / (S * sigma * Real.sqrt T)

/-- The specification's class-derived cost of carry:
STOCK → `r`; DIVIDEND → `r − q`; FUTURES → `0`; CURRENCY → `r − Rf`. -/
def classDerivedCarry {β : Type} [Field β] (underlyingClass : UnderlyingType) (r q Rf : β) : β :=
  match underlyingClass with
  | UnderlyingType.STOCK => r
  | UnderlyingType.DIVIDEND => r - q
  | UnderlyingType.FUTURES => 0
  | UnderlyingType.CURRENCY => r - Rf

/-- The option obtained by flipping only the CALL/PUT kind. -/
def flipKind (o : EuropeanOption α) : EuropeanOption α :=
  { o with
    call_or_put :=
      match o.call_or_put with
      | CallOrPut.CALL => CallOrPut.PUT
      | CallOrPut.PUT => CallOrPut.CALL }

/-- The specification's single substitution: the option whose named parameter (S, K, T, r,
sigma or b) is replaced by `v`, every other field held at its value. -/
def overrideParameter (o : EuropeanOption α) (parameter : Parameter) (v : α) :
    EuropeanOption α :=
  if parameter = UNDERLYING then { o with m_S := v }
  else if parameter = STRIKE then { o with m_K := v }
  else if parameter = TIME then { o with m_T := v }
  else if parameter = RATE then { o with m_r := v }
  else if parameter = SIGMA then { o with m_s := v }
  else if parameter = CARRY then { o with m_b := v }
  else o

/-! ## Reference inputs -/

/-- The option `EuropeanOption(60.0, 65.0, 0.25, 0.08, 0.30, kind, STOCK)` of `main.cpp`
(batch 1 of `Pricing` and `PutCallParity`). -/
def batch1 (α : Type) [Field α] (kind : CallOrPut) : EuropeanOption α :=
  EuropeanOption.construct 60 65 (1 / 4) (8 / 100) (3 / 10) kind UnderlyingType.STOCK 0 0

/-- The option `EuropeanOption(100.0, 100.0, 1.0, 0.0, 0.2, kind, STOCK)` of `main.cpp`
(batch 2 of `Pricing` and `PutCallParity`). -/
def batch2 (α : Type) [Field α] (kind : CallOrPut) : EuropeanOption α :=
  EuropeanOption.construct 100 100 1 0 (1 / 5) kind UnderlyingType.STOCK 0 0

/-- The option `EuropeanOption(105, 100, 0.5, 0.1, 0.36, CALL, FUTURES)` of `main.cpp`
(`GreeksApproximation`). -/
def futuresCall (α : Type) [Field α] : EuropeanOption α :=
  EuropeanOption.construct 105 100 (1 / 2) (1 / 10) (9 / 25) CallOrPut.CALL
    UnderlyingType.FUTURES 0 0

/-- The option `EuropeanOption(100.0, 100.0, 30.0, 0.08, 0.30, PUT, STOCK)` of `main.cpp`
(`MeshPricing`). -/
def meshPut (α : Type) [Field α] : EuropeanOption α :=
  EuropeanOption.construct 100 100 30 (8 / 100) (3 / 10) CallOrPut.PUT UnderlyingType.STOCK 0 0

/-! ## The standard normal distribution -/

section StandardNormal

open MeasureTheory ProbabilityTheory Set

/-- The standard Gaussian measure is symmetric about the origin. -/
theorem gaussianReal_std_map_neg :
    (gaussianReal 0 1).map (fun x : ℝ => -x) = gaussianReal 0 1 := by
  have h := @gaussianReal_map_const_mul 0 1 (-1)
  have e : (fun x : ℝ => -1 * x) = fun x => -x := by funext x; ring
  rw [e] at h
  rw [h]
  congr 1
  · simp
  · ext; simp

/-- The standard Gaussian measure has no atoms. -/
theorem gaussianReal_std_noAtoms : NoAtoms (gaussianReal 0 1) :=
  ⟨fun x => gaussianReal_absolutelyContinuous 0 one_ne_zero (measure_singleton x)⟩

/-- The function `Φ` is the mass the standard Gaussian gives to `(-∞, x]`. -/
theorem Phi_eq_toReal (x : ℝ) : Phi x = ((gaussianReal 0 1) (Iic x)).toReal :=
  cdf_eq_toReal _ x

/-- Reflection: `Φ(-x) = 1 - Φ(x)`. -/
theorem Phi_neg (x : ℝ) : Phi (-x) = 1 - Phi x := by
  haveI := gaussianReal_std_noAtoms
  have h1 : gaussianReal 0 1 (Iic (-x)) = gaussianReal 0 1 (Ici x) := by
    conv_lhs => rw [← gaussianReal_std_map_neg]
    rw [Measure.map_apply measurable_neg measurableSet_Iic]
    congr 1
    ext y
    simp [neg_le_neg_iff]
  have h2 : gaussianReal 0 1 (Ici x) = gaussianReal 0 1 (Ioi x) :=
    (measure_congr Ioi_ae_eq_Ici).symm
  have h3 : gaussianReal 0 1 (Ioi x) = 1 - gaussianReal 0 1 (Iic x) := by
    rw [← compl_Iic]
    exact prob_compl_eq_one_sub measurableSet_Iic
  rw [Phi_eq_toReal, Phi_eq_toReal, h1, h2, h3,
    ENNReal.toReal_sub_of_le prob_le_one ENNReal.one_ne_top, ENNReal.one_toReal]

/-- The function `Φ` is strictly increasing. -/
theorem Phi_lt_Phi {x y : ℝ} (h : x < y) : Phi x < Phi y := by
  have hpos : 0 < gaussianReal 0 1 (Ioc x y) := by
    rw [gaussianReal_apply 0 one_ne_zero, setLintegral_pos_iff (measurable_gaussianPDF 0 1)]
    have hsupp : Function.support (gaussianPDF 0 1) = univ := by
      ext t
      simp [Function.mem_support, (gaussianPDF_pos 0 one_ne_zero t).ne']
    rw [hsupp, univ_inter, Real.volume_Ioc]
    simpa using h
  have hsplit :
      gaussianReal 0 1 (Iic y) = gaussianReal 0 1 (Iic x) + gaussianReal 0 1 (Ioc x y) := by
    rw [← Iic_union_Ioc_eq_Iic h.le]
    exact measure_union (Iic_disjoint_Ioc le_rfl) measurableSet_Ioc
  rw [Phi_eq_toReal, Phi_eq_toReal, hsplit,
    ENNReal.toReal_add (measure_ne_top _ _) (measure_ne_top _ _)]
  have : 0 < (gaussianReal 0 1 (Ioc x y)).toReal :=
    ENNReal.toReal_pos hpos.ne' (measure_ne_top _ _)
  linarith

end StandardNormal

/-! ## Closed-form price and put-call parity -/

/-- The call and put helpers differ by the discounted forward minus the discounted strike. -/
theorem PriceAsCall_sub_PriceAsPut (o : EuropeanOption ℝ) :
    o.PriceAsCall realNumerics - o.PriceAsPut realNumerics
      = o.m_S * Real.exp ((o.m_b - o.m_r) * o.m_T) - o.m_K * Real.exp (-(o.m_r * o.m_T)) := by
  simp only [EuropeanOption.PriceAsCall, EuropeanOption.PriceAsPut, realNumerics, Phi_neg,
    neg_mul]
  ring

/-- The helpers read only the six fields S, K, T, r, sigma, b. -/
theorem PriceAsPut_congr {α : Type} [Field α] (m : Numerics α) (c p : EuropeanOption α)
    (hS : p.m_S = c.m_S) (hK : p.m_K = c.m_K) (hT : p.m_T = c.m_T) (hr : p.m_r = c.m_r)
    (hs : p.m_s = c.m_s) (hb : p.m_b = c.m_b) : p.PriceAsPut m = c.PriceAsPut m := by
  simp only [EuropeanOption.PriceAsPut, hS, hK, hT, hr, hs, hb]

/-- C1. Put-call parity: for a CALL option `c` and a PUT option `p` with identical
S, K, T, r, sigma, b (all of S, K, T, sigma positive), over the reals with the standard normal
CDF, `c.Price() - p.Price() = S*exp((b-r)*T) - K*exp(-r*T)`. -/
theorem put_call_parity (c p : EuropeanOption ℝ)
    (hc : c.call_or_put = CallOrPut.CALL) (hp : p.call_or_put = CallOrPut.PUT)
    (hS : p.m_S = c.m_S) (hK : p.m_K = c.m_K) (hT : p.m_T = c.m_T) (hr : p.m_r = c.m_r)
    (hs : p.m_s = c.m_s) (hb : p.m_b = c.m_b)
    (_hSpos : 0 < c.m_S) (_hKpos : 0 < c.m_K) (_hTpos : 0 < c.m_T) (_hspos : 0 < c.m_s) :
    c.Price realNumerics - p.Price realNumerics
      = c.m_S * Real.exp ((c.m_b - c.m_r) * c.m_T) - c.m_K * Real.exp (-(c.m_r * c.m_T)) := by
  have h1 : c.Price realNumerics = c.PriceAsCall realNumerics := by
    simp [EuropeanOption.Price, hc]
  have h2 : p.Price realNumerics = c.PriceAsPut realNumerics := by
    simp only [EuropeanOption.Price, hp]
    simpa using PriceAsPut_congr realNumerics c p hS hK hT hr hs hb
  rw [h1, h2, PriceAsCall_sub_PriceAsPut]

/-- C1 at the batch-1 options of `main.cpp`: S=60, K=65, T=0.25, r=0.08, sigma=0.30, STOCK. -/
theorem put_call_parity_witness :
    (batch1 ℝ CallOrPut.CALL).Price realNumerics - (batch1 ℝ CallOrPut.PUT).Price realNumerics
      = 60 * Real.exp ((8 / 100 - 8 / 100) * (1 / 4)) - 65 * Real.exp (-(8 / 100 * (1 / 4))) :=
  put_call_parity (batch1 ℝ CallOrPut.CALL) (batch1 ℝ CallOrPut.PUT) rfl rfl rfl rfl rfl rfl rfl
    rfl (by norm_num [batch1, EuropeanOption.construct])
    (by norm_num [batch1, EuropeanOption.construct])
    (by norm_num [batch1, EuropeanOption.construct])
    (by norm_num [batch1, EuropeanOption.construct])

/-- C2. `Price()` dispatches on the option kind and is the generalised Black-Scholes closed
form: for S, K, T, sigma positive, a CALL is priced `S*exp((b-r)*T)*Phi(d1) - K*exp(-r*T)*Phi(d2)`
and a PUT `K*exp(-r*T)*Phi(-d2) - S*exp((b-r)*T)*Phi(-d1)`, with `d1`, `d2` as in the
specification. -/
theorem price_closed_form (o : EuropeanOption ℝ)
    (_hSpos : 0 < o.m_S) (_hKpos : 0 < o.m_K) (_hTpos : 0 < o.m_T) (_hspos : 0 < o.m_s) :
    o.Price realNumerics =
      match o.call_or_put with
      | CallOrPut.CALL => specCallPrice o.m_S o.m_K o.m_T o.m_r o.m_s o.m_b
      | CallOrPut.PUT => specPutPrice o.m_S o.m_K o.m_T o.m_r o.m_s o.m_b := by
  cases hk : o.call_or_put
  · simp only [EuropeanOption.Price, hk, if_true, EuropeanOption.PriceAsCall, realNumerics,
      specCallPrice, specD2, specD1, neg_mul, pow_two]
  · simp only [EuropeanOption.Price, hk, EuropeanOption.PriceAsPut, realNumerics,
      specPutPrice, specD2, specD1, neg_mul, pow_two, reduceCtorEq, if_false]

/-- C2 at the batch-1 PUT of `main.cpp`: S=60, K=65, T=0.25, r=0.08, sigma=0.30, b=0.08. -/
theorem price_closed_form_witness :
    (batch1 ℝ CallOrPut.PUT).Price realNumerics
      = specPutPrice 60 65 (1 / 4) (8 / 100) (3 / 10) (8 / 100) :=
  price_closed_form (batch1 ℝ CallOrPut.PUT)
    (by norm_num [batch1, EuropeanOption.construct])
    (by norm_num [batch1, EuropeanOption.construct])
    (by norm_num [batch1, EuropeanOption.construct])
    (by norm_num [batch1, EuropeanOption.construct])

/-! ## Carry-model selection -/

/-- C3. The parameter constructor stores S, K, T, r, sigma, kind, class, q, Rf unchanged and
derives the cost of carry from the underlying class: STOCK gives `b = r`, DIVIDEND `b = r - q`,
FUTURES `b = 0` whatever `r` is, CURRENCY `b = r - Rf`; with r=0.08 and q=0.03 a DIVIDEND
option has b=0.05. -/
theorem construct_stores_and_derives_carry {α : Type} [Field α]
    (S K T r sigma : α) (kind : CallOrPut) (u : UnderlyingType) (q Rf : α) :
    (EuropeanOption.construct S K T r sigma kind u q Rf).S = S
    ∧ (EuropeanOption.construct S K T r sigma kind u q Rf).K = K
    ∧ (EuropeanOption.construct S K T r sigma kind u q Rf).T = T
    ∧ (EuropeanOption.construct S K T r sigma kind u q Rf).r = r
    ∧ (EuropeanOption.construct S K T r sigma kind u q Rf).s = sigma
    ∧ (EuropeanOption.construct S K T r sigma kind u q Rf).call_or_put = kind
    ∧ (EuropeanOption.construct S K T r sigma kind u q Rf).underlying_type = u
    ∧ (EuropeanOption.construct S K T r sigma kind u q Rf).q = q
    ∧ (EuropeanOption.construct S K T r sigma kind u q Rf).R = Rf
    ∧ (EuropeanOption.construct S K T r sigma kind UnderlyingType.STOCK q Rf).b = r
    ∧ (EuropeanOption.construct S K T r sigma kind UnderlyingType.DIVIDEND q Rf).b = r - q
    ∧ (EuropeanOption.construct S K T r sigma kind UnderlyingType.FUTURES q Rf).b = 0
    ∧ (EuropeanOption.construct S K T r sigma kind UnderlyingType.CURRENCY q Rf).b = r - Rf
    ∧ (EuropeanOption.construct S K T (8 / 100) sigma kind UnderlyingType.DIVIDEND
        (3 / 100) Rf).b = 5 / 100 := by
  refine ⟨rfl, rfl, rfl, rfl, rfl, rfl, rfl, rfl, rfl, rfl, rfl, rfl, rfl, ?_⟩
  show (8 / 100 : α) - 3 / 100 = 5 / 100
  rw [← sub_div]
  norm_num

/-! ## Pricing by put-call parity -/

/-- For a CALL, the parity overload fed with the option's own price returns the PUT price
shifted by `S*exp((b-r)*T) - S`. -/
theorem parity_of_own_price_call (o : EuropeanOption ℝ) (hk : o.call_or_put = CallOrPut.CALL) :
    (o.PriceViaPutCallParity realNumerics (o.Price realNumerics))[0]?
      = some ((flipKind o).Price realNumerics
          + (o.m_S * Real.exp ((o.m_b - o.m_r) * o.m_T) - o.m_S)) := by
  have hcp := PriceAsCall_sub_PriceAsPut o
  have hflip : (flipKind o).Price realNumerics = o.PriceAsPut realNumerics := by
    simp [flipKind, EuropeanOption.Price, hk, EuropeanOption.PriceAsPut]
  have hown : o.Price realNumerics = o.PriceAsCall realNumerics := by
    simp [EuropeanOption.Price, hk]
  simp only [EuropeanOption.PriceViaPutCallParity, hk, if_true, List.getElem?_cons_zero,
    Option.some.injEq]
  rw [hflip, hown]
  simp only [show realNumerics.exp = Real.exp from rfl, neg_mul, EuropeanOption.S,
    EuropeanOption.K, EuropeanOption.r, EuropeanOption.T]
  linarith

/-- For a PUT, the parity overload fed with the option's own price returns the CALL price
shifted by `S - S*exp((b-r)*T)`. -/
theorem parity_of_own_price_put (o : EuropeanOption ℝ) (hk : o.call_or_put = CallOrPut.PUT) :
    (o.PriceViaPutCallParity realNumerics (o.Price realNumerics))[0]?
      = some ((flipKind o).Price realNumerics
          + (o.m_S - o.m_S * Real.exp ((o.m_b - o.m_r) * o.m_T))) := by
  have hcp := PriceAsCall_sub_PriceAsPut o
  have hflip : (flipKind o).Price realNumerics = o.PriceAsCall realNumerics := by
    simp [flipKind, EuropeanOption.Price, hk, EuropeanOption.PriceAsCall]
  have hown : o.Price realNumerics = o.PriceAsPut realNumerics := by
    simp [EuropeanOption.Price, hk]
  simp only [EuropeanOption.PriceViaPutCallParity, hk, reduceCtorEq, if_false,
    List.getElem?_cons_zero, Option.some.injEq]
  rw [hflip, hown]
  simp only [show realNumerics.exp = Real.exp from rfl, neg_mul, EuropeanOption.S,
    EuropeanOption.K, EuropeanOption.r, EuropeanOption.T]
  linarith

/-- C4. At the FUTURES call of `main.cpp` (S=105, K=100, T=0.5, r=0.1, sigma=0.36, b=0) the
first element of `o.Price(o.Price())` is the price of the flipped option lowered by
`105*(1 - exp(-1/20))`, so it differs from the PUT price: the parity overload adds the bare `S`
where parity under a cost of carry has `S*exp((b-r)*T)`. -/
theorem parity_composition_futures_call :
    ((futuresCall ℝ).PriceViaPutCallParity realNumerics ((futuresCall ℝ).Price realNumerics))[0]?
        = some ((flipKind (futuresCall ℝ)).Price realNumerics
            - 105 * (1 - Real.exp (-(1 / 20))))
    ∧ ((futuresCall ℝ).PriceViaPutCallParity realNumerics
          ((futuresCall ℝ).Price realNumerics))[0]?
        ≠ some ((flipKind (futuresCall ℝ)).Price realNumerics) := by
  have h := parity_of_own_price_call (futuresCall ℝ) rfl
  have hexp : Real.exp (-(1 / 20)) < 1 := by
    have hlt := Real.exp_lt_exp.2 (show (-(1 / 20) : ℝ) < 0 by norm_num)
    rwa [Real.exp_zero] at hlt
  have hval : (futuresCall ℝ).m_S
        * Real.exp (((futuresCall ℝ).m_b - (futuresCall ℝ).m_r) * (futuresCall ℝ).m_T)
        - (futuresCall ℝ).m_S = -(105 * (1 - Real.exp (-(1 / 20)))) := by
    have e : (((futuresCall ℝ).m_b - (futuresCall ℝ).m_r) * (futuresCall ℝ).m_T)
        = -(1 / 20) := by
      norm_num [futuresCall, EuropeanOption.construct]
    rw [e]
    simp only [futuresCall, EuropeanOption.construct]
    ring
  rw [h, hval]
  refine ⟨by congr 1, ?_⟩
  intro hcontra
  have := Option.some.inj hcontra
  linarith

/-- C5. Parity composition on stock options: for S, K, T, sigma positive and the underlying
class STOCK, the PUT fed with its own price returns the CALL price as first element, and the
CALL fed with its own price returns the PUT price. -/
theorem parity_composition_stock (S K T r sigma q Rf : ℝ)
    (_hS : 0 < S) (_hK : 0 < K) (_hT : 0 < T) (_hs : 0 < sigma) :
    ((EuropeanOption.construct S K T r sigma CallOrPut.PUT UnderlyingType.STOCK q Rf
        ).PriceViaPutCallParity realNumerics
        ((EuropeanOption.construct S K T r sigma CallOrPut.PUT UnderlyingType.STOCK q Rf
          ).Price realNumerics))[0]?
      = some ((EuropeanOption.construct S K T r sigma CallOrPut.CALL UnderlyingType.STOCK q Rf
          ).Price realNumerics)
    ∧ ((EuropeanOption.construct S K T r sigma CallOrPut.CALL UnderlyingType.STOCK q Rf
        ).PriceViaPutCallParity realNumerics
        ((EuropeanOption.construct S K T r sigma CallOrPut.CALL UnderlyingType.STOCK q Rf
          ).Price realNumerics))[0]?
      = some ((EuropeanOption.construct S K T r sigma CallOrPut.PUT UnderlyingType.STOCK q Rf
          ).Price realNumerics) := by
  constructor
  · rw [parity_of_own_price_put _ rfl]
    simp [flipKind, EuropeanOption.construct]
  · rw [parity_of_own_price_call _ rfl]
    simp [flipKind, EuropeanOption.construct]

/-- C5 at the demo's batch 1: S=60, K=65, T=0.25, r=0.08, sigma=0.30, STOCK. -/
theorem parity_composition_stock_witness :
    ((batch1 ℝ CallOrPut.PUT).PriceViaPutCallParity realNumerics
        ((batch1 ℝ CallOrPut.PUT).Price realNumerics))[0]?
      = some ((batch1 ℝ CallOrPut.CALL).Price realNumerics)
    ∧ ((batch1 ℝ CallOrPut.CALL).PriceViaPutCallParity realNumerics
        ((batch1 ℝ CallOrPut.CALL).Price realNumerics))[0]?
      = some ((batch1 ℝ CallOrPut.PUT).Price realNumerics) :=
  parity_composition_stock 60 65 (1 / 4) (8 / 100) (3 / 10) 0 0
    (by norm_num) (by norm_num) (by norm_num) (by norm_num)

/-- C6. `Price(double p)` returns exactly two elements, the first being the parity-implied
price: `p + K*exp(-r*T) - S` for a CALL and `p + S - K*exp(-r*T)` for a PUT. -/
theorem parity_price_value {α : Type} [Field α] (m : Numerics α) (o : EuropeanOption α)
    (p : α) :
    (o.PriceViaPutCallParity m p).length = 2
    ∧ (o.PriceViaPutCallParity m p)[0]?
        = some (match o.call_or_put with
            | CallOrPut.CALL => p + o.K * m.exp (-(o.r * o.T)) - o.S
            | CallOrPut.PUT => p + o.S - o.K * m.exp (-(o.r * o.T))) := by
  cases hk : o.call_or_put <;>
    simp [EuropeanOption.PriceViaPutCallParity, hk]

/-- C7. The parity residual is zero by construction: the second element of `Price(double p)`
is 0 in exact arithmetic for a CALL and for a PUT, whatever p, S, K, r and T are. -/
theorem parity_difference_zero {α : Type} [Field α] (m : Numerics α) (o : EuropeanOption α)
    (p : α) :
    (o.PriceViaPutCallParity m p)[1]? = some 0 := by
  cases hk : o.call_or_put <;>
    simp [EuropeanOption.PriceViaPutCallParity, hk]

/-! ## Pricing over a mesh -/

/-- The push-back loop appends the image of the mesh to the vector it started from. -/
theorem pushBackEach_eq {α : Type} (f : α → α) (parameter_mesh prices : List α) :
    pushBackEach f parameter_mesh prices = prices ++ parameter_mesh.map f := by
  unfold pushBackEach
  induction parameter_mesh generalizing prices with
  | nil => simp
  | cons element rest ih => simp [List.foldl_cons, ih]

/-- With every argument at the sentinel the 6-argument helpers are the 0-argument ones, and a
single argument different from `-1` replaces exactly its own attribute. -/
theorem price6_single_override {α : Type} [Field α] [DecidableEq α] (m : Numerics α)
    (o : EuropeanOption α) (v : α) :
    (o.PriceAsCall6 m (-1) (-1) (-1) (-1) (-1) (-1) = o.PriceAsCall m
      ∧ o.PriceAsPut6 m (-1) (-1) (-1) (-1) (-1) (-1) = o.PriceAsPut m)
    ∧ (v ≠ -1 →
      (o.PriceAsCall6 m v (-1) (-1) (-1) (-1) (-1) = EuropeanOption.PriceAsCall m { o with m_S := v }
        ∧ o.PriceAsCall6 m (-1) v (-1) (-1) (-1) (-1)
            = EuropeanOption.PriceAsCall m { o with m_K := v }
        ∧ o.PriceAsCall6 m (-1) (-1) v (-1) (-1) (-1)
            = EuropeanOption.PriceAsCall m { o with m_T := v }
        ∧ o.PriceAsCall6 m (-1) (-1) (-1) v (-1) (-1)
            = EuropeanOption.PriceAsCall m { o with m_r := v }
        ∧ o.PriceAsCall6 m (-1) (-1) (-1) (-1) v (-1)
            = EuropeanOption.PriceAsCall m { o with m_s := v }
        ∧ o.PriceAsCall6 m (-1) (-1) (-1) (-1) (-1) v
            = EuropeanOption.PriceAsCall m { o with m_b := v })
      ∧ (o.PriceAsPut6 m v (-1) (-1) (-1) (-1) (-1) = EuropeanOption.PriceAsPut m { o with m_S := v }
        ∧ o.PriceAsPut6 m (-1) v (-1) (-1) (-1) (-1)
            = EuropeanOption.PriceAsPut m { o with m_K := v }
        ∧ o.PriceAsPut6 m (-1) (-1) v (-1) (-1) (-1)
            = EuropeanOption.PriceAsPut m { o with m_T := v }
        ∧ o.PriceAsPut6 m (-1) (-1) (-1) v (-1) (-1)
            = EuropeanOption.PriceAsPut m { o with m_r := v }
        ∧ o.PriceAsPut6 m (-1) (-1) (-1) (-1) v (-1)
            = EuropeanOption.PriceAsPut m { o with m_s := v }
        ∧ o.PriceAsPut6 m (-1) (-1) (-1) (-1) (-1) v
            = EuropeanOption.PriceAsPut m { o with m_b := v })) := by
  refine ⟨⟨?_, ?_⟩, fun hv => ⟨⟨?_, ?_, ?_, ?_, ?_, ?_⟩, ⟨?_, ?_, ?_, ?_, ?_, ?_⟩⟩⟩ <;>
    simp [EuropeanOption.PriceAsCall6, EuropeanOption.PriceAsPut6, EuropeanOption.PriceAsCall,
      EuropeanOption.PriceAsPut, *]

/-- What `Price(mesh, parameter)` computes for a recognised selector: the image of the mesh
under "price the option with the named parameter replaced", except that a mesh value `-1` is the
helpers' sentinel and prices the unmodified option. -/
theorem PriceOverMesh_eq_map {α : Type} [Field α] [DecidableEq α] (m : Numerics α)
    (o : EuropeanOption α) (parameter_mesh : List α) (parameter : Parameter)
    (hsel : parameter ∈ [UNDERLYING, STRIKE, TIME, RATE, SIGMA, CARRY]) :
    o.PriceOverMesh m parameter_mesh parameter
      = parameter_mesh.map (fun v =>
          if v = -1 then o.Price m else (overrideParameter o parameter v).Price m) := by
  have hfun : ∀ f g : α → α, (∀ v, f v = g v) →
      pushBackEach f parameter_mesh [] = parameter_mesh.map g := by
    intro f g hfg
    rw [pushBackEach_eq, List.nil_append]
    exact List.map_congr_left (fun v _ => hfg v)
  simp only [List.mem_cons, List.mem_singleton, List.not_mem_nil, or_false] at hsel
  cases hk : o.call_or_put <;>
  rcases hsel with rfl | rfl | rfl | rfl | rfl | rfl <;>
  · simp only [EuropeanOption.PriceOverMesh, hk, decide_True, decide_False, if_true, if_false,
      Fin.reduceEq, Bool.false_eq_true, reduceCtorEq]
    apply hfun
    intro v
    by_cases hv : v = -1
    · subst hv
      simp [EuropeanOption.Price, hk, (price6_single_override m o 0).1]
    · simp [EuropeanOption.Price, overrideParameter, UNDERLYING, STRIKE, TIME, RATE, SIGMA,
        CARRY, hk, hv, (price6_single_override m o v).2 hv]

/-- The batch-2 CALL of `main.cpp` (S=100, K=100, T=1, r=0, sigma=0.2, b=0) has the price
`100*Phi(1/10) - 100*Phi(-1/10)`. -/
theorem batch2_call_price :
    (batch2 ℝ CallOrPut.CALL).Price realNumerics = 100 * Phi (1 / 10) - 100 * Phi (-(1 / 10)) := by
  simp only [EuropeanOption.Price, batch2, EuropeanOption.construct, if_true,
    EuropeanOption.PriceAsCall, realNumerics, Real.sqrt_one, mul_one, sub_self, zero_mul,
    neg_zero, Real.exp_zero, zero_add]
  rw [div_self (by norm_num : (100 : ℝ) ≠ 0), Real.log_one]
  norm_num

/-- The same option with its rate replaced by `-1` (and `b` left at 0) has the price
`100*e*Phi(1/10) - 100*e*Phi(-1/10)`. -/
theorem batch2_call_price_rate_neg_one :
    (overrideParameter (batch2 ℝ CallOrPut.CALL) RATE (-1)).Price realNumerics
      = 100 * Real.exp 1 * Phi (1 / 10) - 100 * Real.exp 1 * Phi (-(1 / 10)) := by
  simp only [overrideParameter, UNDERLYING, STRIKE, TIME, RATE, Fin.reduceEq, if_false, if_true,
    EuropeanOption.Price, batch2, EuropeanOption.construct,
    EuropeanOption.PriceAsCall, realNumerics, Real.sqrt_one, mul_one, zero_sub, neg_neg,
    zero_add]
  rw [div_self (by norm_num : (100 : ℝ) ≠ 0), Real.log_one]
  norm_num

/-- C8, the claim as stated fails. On the batch-2 CALL of `main.cpp` (r = 0, b = 0) the mesh
`[-1]` under the selector RATE yields the price of the unmodified option,
`100*(Phi(1/10) - Phi(-1/10))`, not the price of the option with `r = -1`, which is `e` times
as large. -/
theorem price_over_mesh_rate_sentinel_counterexample :
    ((batch2 ℝ CallOrPut.CALL).PriceOverMesh realNumerics [-1] RATE)[0]?
      ≠ some ((overrideParameter (batch2 ℝ CallOrPut.CALL) RATE (-1)).Price realNumerics) := by
  rw [PriceOverMesh_eq_map realNumerics _ _ RATE (by simp), batch2_call_price_rate_neg_one]
  simp only [List.map_cons, List.map_nil, if_true, List.getElem?_cons_zero, batch2_call_price]
  intro hcontra
  have heq := Option.some.inj hcontra
  have hPhi : Phi (-(1 / 10)) < Phi (1 / 10) := Phi_lt_Phi (by norm_num)
  have hexp : 1 < Real.exp 1 := by
    have hlt := Real.exp_lt_exp.2 (show (0 : ℝ) < 1 by norm_num)
    rwa [Real.exp_zero] at hlt
  nlinarith [mul_pos (sub_pos.2 hPhi) (sub_pos.2 hexp)]

/-- C8 as amended. For a recognised selector, the i-th element of `Price(mesh, selector)` is
`Price()` of the option whose named field is replaced by the i-th mesh value `v` (other fields,
`b` included when RATE is selected, unchanged) whenever `v` differs from `-1`; a mesh value
equal to `-1` is the helpers' sentinel and gives `Price()` of the unmodified option. -/
theorem price_over_mesh_overrides {α : Type} [Field α] [DecidableEq α] (m : Numerics α)
    (o : EuropeanOption α) (parameter_mesh : List α) (parameter : Parameter)
    (hsel : parameter ∈ [UNDERLYING, STRIKE, TIME, RATE, SIGMA, CARRY])
    (i : ℕ) (hi : i < parameter_mesh.length) :
    (o.PriceOverMesh m parameter_mesh parameter)[i]?
      = some (if parameter_mesh[i] = -1 then o.Price m
          else (overrideParameter o parameter parameter_mesh[i]).Price m) := by
  rw [PriceOverMesh_eq_map m o parameter_mesh parameter hsel, List.getElem?_map,
    List.getElem?_eq_getElem hi]
  rfl

/-- C8 as amended at the demo's mesh pricing: the PUT with S=100, K=100, T=30, r=0.08,
sigma=0.30 over the mesh `[99, 100, 101]` of underlying prices, element 1. -/
theorem price_over_mesh_overrides_witness :
    ((meshPut ℝ).PriceOverMesh realNumerics [99, 100, 101] UNDERLYING)[1]?
      = some ((overrideParameter (meshPut ℝ) UNDERLYING 100).Price realNumerics) := by
  have h := price_over_mesh_overrides realNumerics (meshPut ℝ) [99, 100, 101] UNDERLYING
    (by simp) 1 (by simp)
  have hne : ¬ ((100 : ℝ) = -1) := by norm_num
  simpa [hne] using h

/-- C9. One price per mesh value, in input order: for a recognised selector and a mesh with no
element equal to `-1`, `Price(mesh, selector)` has the length of the mesh, is the map of the
single-override pricing function over the mesh, and so has as i-th element the price computed
from the i-th mesh element. -/
theorem price_over_mesh_is_map {α : Type} [Field α] [DecidableEq α] (m : Numerics α)
    (o : EuropeanOption α) (parameter_mesh : List α) (parameter : Parameter)
    (hsel : parameter ∈ [UNDERLYING, STRIKE, TIME, RATE, SIGMA, CARRY])
    (hmesh : ∀ v ∈ parameter_mesh, v ≠ -1) :
    (o.PriceOverMesh m parameter_mesh parameter).length = parameter_mesh.length
    ∧ o.PriceOverMesh m parameter_mesh parameter
        = parameter_mesh.map (fun v => (overrideParameter o parameter v).Price m)
    ∧ ∀ (i : ℕ) (hi : i < parameter_mesh.length),
        (o.PriceOverMesh m parameter_mesh parameter)[i]?
          = some ((overrideParameter o parameter parameter_mesh[i]).Price m) := by
  have hmap : o.PriceOverMesh m parameter_mesh parameter
      = parameter_mesh.map (fun v => (overrideParameter o parameter v).Price m) := by
    rw [PriceOverMesh_eq_map m o parameter_mesh parameter hsel]
    exact List.map_congr_left (fun v hv => if_neg (hmesh v hv))
  refine ⟨by rw [hmap, List.length_map], hmap, fun i hi => ?_⟩
  rw [hmap, List.getElem?_map, List.getElem?_eq_getElem hi]
  rfl

/-- C9 at the demo's mesh pricing: the PUT with S=100, K=100, T=30, r=0.08, sigma=0.30 over
the mesh `[99, 100, 101]` of underlying prices. -/
theorem price_over_mesh_is_map_witness :
    ((meshPut ℝ).PriceOverMesh realNumerics [99, 100, 101] UNDERLYING).length = 3
    ∧ (meshPut ℝ).PriceOverMesh realNumerics [99, 100, 101] UNDERLYING
        = [(overrideParameter (meshPut ℝ) UNDERLYING 99).Price realNumerics,
           (overrideParameter (meshPut ℝ) UNDERLYING 100).Price realNumerics,
           (overrideParameter (meshPut ℝ) UNDERLYING 101).Price realNumerics] := by
  have hmesh : ∀ v ∈ [(99 : ℝ), 100, 101], v ≠ -1 := by
    intro v hv
    simp only [List.mem_cons, List.mem_singleton, List.not_mem_nil, or_false] at hv
    rcases hv with rfl | rfl | rfl <;> norm_num
  have h := price_over_mesh_is_map realNumerics (meshPut ℝ) [99, 100, 101] UNDERLYING
    (by simp) hmesh
  exact ⟨h.1, h.2.1⟩

/-- C10. Mesh consistency: for an underlying value `S' > 0`, `Price([S'], UNDERLYING)` is the
one-element list holding `Price()` of the same option with its underlying price set to `S'`
and every other field, `b` included, unchanged. -/
theorem mesh_consistency_singleton {α : Type} [LinearOrderedField α] (m : Numerics α)
    (o : EuropeanOption α) (S' : α) (hS : 0 < S') :
    o.PriceOverMesh m [S'] UNDERLYING = [EuropeanOption.Price m { o with m_S := S' }] := by
  have hne : ¬ (S' = -1) := by
    intro h
    rw [h] at hS
    exact absurd hS (by norm_num)
  rw [PriceOverMesh_eq_map m o [S'] UNDERLYING (by simp)]
  simp [hne, overrideParameter]

/-- C10 at the demo's PUT (S=100, K=100, T=30, r=0.08, sigma=0.30) and `S' = 99`. -/
theorem mesh_consistency_singleton_witness :
    (meshPut ℝ).PriceOverMesh realNumerics [99] UNDERLYING
      = [EuropeanOption.Price realNumerics { meshPut ℝ with m_S := 99 }] :=
  mesh_consistency_singleton realNumerics (meshPut ℝ) 99 (by norm_num)

/-! ## Closed-form Greeks -/

/-- The standard normal density is even. -/
theorem phi_neg (x : ℝ) : phi (-x) = phi x := by
  simp [phi, ProbabilityTheory.gaussianPDFReal]

/-- C13. `Delta()` is `sign*exp((b-r)*T)*Phi(sign*d1)` with sign `+1` for a CALL and `-1` for a
PUT and `d1` as in the specification, for S, K, T, sigma positive. -/
theorem delta_closed_form (o : EuropeanOption ℝ)
    (_hSpos : 0 < o.m_S) (_hKpos : 0 < o.m_K) (_hTpos : 0 < o.m_T) (_hspos : 0 < o.m_s) :
    o.Delta realNumerics = specDelta o.call_or_put o.m_S o.m_K o.m_T o.m_r o.m_s o.m_b := by
  cases hk : o.call_or_put <;>
    simp [EuropeanOption.Delta, hk, realNumerics, specDelta, specSign, specD1, pow_two]

/-- C13 at the FUTURES call of `main.cpp`: S=105, K=100, T=0.5, r=0.1, sigma=0.36, b=0. -/
theorem delta_closed_form_witness :
    (futuresCall ℝ).Delta realNumerics
      = specDelta CallOrPut.CALL 105 100 (1 / 2) (1 / 10) (9 / 25) 0 :=
  delta_closed_form (futuresCall ℝ)
    (by norm_num [futuresCall, EuropeanOption.construct])
    (by norm_num [futuresCall, EuropeanOption.construct])
    (by norm_num [futuresCall, EuropeanOption.construct])
    (by norm_num [futuresCall, EuropeanOption.construct])

/-- C14. Gamma is sign-independent: for a CALL `c` and a PUT `p` with identical S, K, T, r,
sigma, b (S, K, T, sigma positive), `c.Gamma() = p.Gamma()` and both are
`phi(d1)*exp((b-r)*T) / (S*sigma*sqrt(T))`. -/
theorem gamma_sign_independent (c p : EuropeanOption ℝ)
    (hc : c.call_or_put = CallOrPut.CALL) (hp : p.call_or_put = CallOrPut.PUT)
    (hS : p.m_S = c.m_S) (hK : p.m_K = c.m_K) (hT : p.m_T = c.m_T) (hr : p.m_r = c.m_r)
    (hs : p.m_s = c.m_s) (hb : p.m_b = c.m_b)
    (_hSpos : 0 < c.m_S) (_hKpos : 0 < c.m_K) (_hTpos : 0 < c.m_T) (_hspos : 0 < c.m_s) :
    c.Gamma realNumerics = p.Gamma realNumerics
    ∧ c.Gamma realNumerics = specGamma c.m_S c.m_K c.m_T c.m_r c.m_s c.m_b
    ∧ p.Gamma realNumerics = specGamma c.m_S c.m_K c.m_T c.m_r c.m_s c.m_b := by
  have h1 : c.Gamma realNumerics = specGamma c.m_S c.m_K c.m_T c.m_r c.m_s c.m_b := by
    simp [EuropeanOption.Gamma, hc, realNumerics, specGamma, specD1, pow_two, mul_assoc]
  have h2 : p.Gamma realNumerics = specGamma c.m_S c.m_K c.m_T c.m_r c.m_s c.m_b := by
    simp [EuropeanOption.Gamma, hp, hS, hK, hT, hr, hs, hb, realNumerics, specGamma, specD1,
      pow_two, mul_assoc, phi_neg]
  exact ⟨h1.trans h2.symm, h1, h2⟩

/-- C14 at the batch-1 options of `main.cpp`: S=60, K=65, T=0.25, r=0.08, sigma=0.30, STOCK. -/
theorem gamma_sign_independent_witness :
    (batch1 ℝ CallOrPut.CALL).Gamma realNumerics = (batch1 ℝ CallOrPut.PUT).Gamma realNumerics
    ∧ (batch1 ℝ CallOrPut.CALL).Gamma realNumerics
        = specGamma 60 65 (1 / 4) (8 / 100) (3 / 10) (8 / 100)
    ∧ (batch1 ℝ CallOrPut.PUT).Gamma realNumerics
        = specGamma 60 65 (1 / 4) (8 / 100) (3 / 10) (8 / 100) :=
  gamma_sign_independent (batch1 ℝ CallOrPut.CALL) (batch1 ℝ CallOrPut.PUT) rfl rfl rfl rfl rfl
    rfl rfl rfl (by norm_num [batch1, EuropeanOption.construct])
    (by norm_num [batch1, EuropeanOption.construct])
    (by norm_num [batch1, EuropeanOption.construct])
    (by norm_num [batch1, EuropeanOption.construct])

/-! ## Greeks over a price mesh -/

/-- C15. Greeks over a price mesh agree with the scalar Greeks: `Delta(mesh)` and `Gamma(mesh)`
have the length of the mesh, they are the maps of `Delta()` and `Gamma()` of the option with its
underlying price replaced (every other field unchanged) over the mesh, and so their i-th elements
are the scalar Greeks at the i-th mesh value. -/
theorem greeks_over_mesh {α : Type} [Field α] (m : Numerics α) (o : EuropeanOption α)
    (price_mesh : List α) :
    (o.DeltaOverMesh m price_mesh).length = price_mesh.length
    ∧ (o.GammaOverMesh m price_mesh).length = price_mesh.length
    ∧ o.DeltaOverMesh m price_mesh
        = price_mesh.map (fun price => EuropeanOption.Delta m { o with m_S := price })
    ∧ o.GammaOverMesh m price_mesh
        = price_mesh.map (fun price => EuropeanOption.Gamma m { o with m_S := price })
    ∧ (∀ i : ℕ, (o.DeltaOverMesh m price_mesh)[i]?
        = (price_mesh[i]?).map (fun price => EuropeanOption.Delta m { o with m_S := price }))
    ∧ (∀ i : ℕ, (o.GammaOverMesh m price_mesh)[i]?
        = (price_mesh[i]?).map (fun price => EuropeanOption.Gamma m { o with m_S := price })) := by
  have hd : o.DeltaOverMesh m price_mesh
      = price_mesh.map (fun price => EuropeanOption.Delta m { o with m_S := price }) := by
    simp only [EuropeanOption.DeltaOverMesh, pushBackEach_eq, List.nil_append]
    rfl
  have hg : o.GammaOverMesh m price_mesh
      = price_mesh.map (fun price => EuropeanOption.Gamma m { o with m_S := price }) := by
    simp only [EuropeanOption.GammaOverMesh, pushBackEach_eq, List.nil_append]
    rfl
  refine ⟨by rw [hd, List.length_map], by rw [hg, List.length_map], hd, hg, fun i => ?_,
    fun i => ?_⟩
  · rw [hd, List.getElem?_map]
  · rw [hg, List.getElem?_map]

/-! ## Finite-difference approximations -/

/-- The 6-argument helpers with only the underlying price given, at a positive price, are the
0-argument helpers of the option with that underlying price. -/
theorem price6_underlying_pos {α : Type} [LinearOrderedField α] (m : Numerics α)
    (o : EuropeanOption α) (x : α) (hx : 0 < x) :
    o.PriceAsCall6 m x (-1) (-1) (-1) (-1) (-1) = EuropeanOption.PriceAsCall m { o with m_S := x }
    ∧ o.PriceAsPut6 m x (-1) (-1) (-1) (-1) (-1)
        = EuropeanOption.PriceAsPut m { o with m_S := x } := by
  have hne : x ≠ -1 := by
    intro h
    rw [h] at hx
    exact absurd hx (by norm_num)
  exact ⟨((price6_single_override m o x).2 hne).1.1, ((price6_single_override m o x).2 hne).2.1⟩

/-- C16. `DeltaApproximation(h)` is the central finite difference of `Price` in S: for S > 0
and 0 < h < S it equals `(P(S+h) - P(S-h)) / (2h)`, where `P(x)` is `Price()` of the same
option with only the underlying price replaced by `x`. -/
theorem delta_approximation_central_difference {α : Type} [LinearOrderedField α]
    (m : Numerics α) (o : EuropeanOption α) (h : α)
    (hS : 0 < o.m_S) (hh : 0 < h) (hhS : h < o.m_S) :
    o.DeltaApproximation m h
      = (EuropeanOption.Price m { o with m_S := o.m_S + h }
          - EuropeanOption.Price m { o with m_S := o.m_S - h }) / (2 * h) := by
  have hplus := price6_underlying_pos m o (o.m_S + h) (add_pos hS hh)
  have hminus := price6_underlying_pos m o (o.m_S - h) (sub_pos.2 hhS)
  cases hk : o.call_or_put
  · simp only [EuropeanOption.DeltaApproximation, EuropeanOption.Price, hk, if_true, hplus.1,
      hminus.1]
  · simp only [EuropeanOption.DeltaApproximation, EuropeanOption.Price, hk, reduceCtorEq,
      if_false, hplus.2, hminus.2]

/-- C16 at the demo's `call.DeltaApproximation(1)`: CALL, S=105, K=100, T=0.5, r=0.1,
sigma=0.36, FUTURES, h=1. -/
theorem delta_approximation_central_difference_witness :
    (futuresCall ℝ).DeltaApproximation realNumerics 1
      = (EuropeanOption.Price realNumerics { futuresCall ℝ with m_S := 105 + 1 }
          - EuropeanOption.Price realNumerics { futuresCall ℝ with m_S := 105 - 1 })
        / (2 * 1) :=
  delta_approximation_central_difference realNumerics (futuresCall ℝ) 1
    (by norm_num [futuresCall, EuropeanOption.construct]) (by norm_num)
    (by norm_num [futuresCall, EuropeanOption.construct])

/-- C17. `GammaApproximation(h)` is the central second difference of `Price` in S: for S > 0
and 0 < h < S it equals `(P(S+h) - 2*Price() + P(S-h)) / h^2`, where `P(x)` is `Price()` of the
same option with only the underlying price replaced by `x` and the middle term is the option's
own `Price()`. -/
theorem gamma_approximation_second_difference {α : Type} [LinearOrderedField α]
    (m : Numerics α) (o : EuropeanOption α) (h : α)
    (hS : 0 < o.m_S) (hh : 0 < h) (hhS : h < o.m_S) :
    o.GammaApproximation m h
      = (EuropeanOption.Price m { o with m_S := o.m_S + h } - 2 * o.Price m
          + EuropeanOption.Price m { o with m_S := o.m_S - h }) / h ^ 2 := by
  have hplus := price6_underlying_pos m o (o.m_S + h) (add_pos hS hh)
  have hminus := price6_underlying_pos m o (o.m_S - h) (sub_pos.2 hhS)
  have hmid := price6_underlying_pos m o o.m_S hS
  cases hk : o.call_or_put
  · simp only [EuropeanOption.GammaApproximation, EuropeanOption.Price, hk, if_true, hplus.1,
      hminus.1, hmid.1, pow_two]
    rfl
  · simp only [EuropeanOption.GammaApproximation, EuropeanOption.Price, hk, reduceCtorEq,
      if_false, hplus.2, hminus.2, hmid.2, pow_two]
    rfl

/-- C17 at the FUTURES call of `main.cpp` (S=105, K=100, T=0.5, r=0.1, sigma=0.36), h=1. -/
theorem gamma_approximation_second_difference_witness :
    (futuresCall ℝ).GammaApproximation realNumerics 1
      = (EuropeanOption.Price realNumerics { futuresCall ℝ with m_S := 105 + 1 }
          - 2 * (futuresCall ℝ).Price realNumerics
          + EuropeanOption.Price realNumerics { futuresCall ℝ with m_S := 105 - 1 }) / 1 ^ 2 :=
  gamma_approximation_second_difference realNumerics (futuresCall ℝ) 1
    (by norm_num [futuresCall, EuropeanOption.construct]) (by norm_num)
    (by norm_num [futuresCall, EuropeanOption.construct])

/-! ## Setters and the cost of carry -/

/-- C20, the claim as stated fails. The batch-1 CALL of `main.cpp` is built with class STOCK
and r = 0.08, so b = 0.08; after the setter call `r(0.05)` the stored `b()` is still 0.08, not
the class-derived value 0.05 of the updated fields. -/
theorem setter_leaves_carry_stale_counterexample :
    ((batch1 ℚ CallOrPut.CALL).set_r (5 / 100)).b = 8 / 100
    ∧ ((batch1 ℚ CallOrPut.CALL).set_r (5 / 100)).b
        ≠ classDerivedCarry ((batch1 ℚ CallOrPut.CALL).set_r (5 / 100)).underlying_type
            ((batch1 ℚ CallOrPut.CALL).set_r (5 / 100)).r
            ((batch1 ℚ CallOrPut.CALL).set_r (5 / 100)).q
            ((batch1 ℚ CallOrPut.CALL).set_r (5 / 100)).R := by
  constructor
  · rfl
  · show (8 / 100 : ℚ) ≠ 5 / 100
    norm_num

/-- C20 as amended. The cost of carry is derived once, by the parameter constructor: each of
the setters `UnderlyingType(x)`, `r(x)`, `q(x)`, `R(x)` replaces only its own field of any
option, every other attribute (S, K, T, r, sigma, b, kind, class, q, Rf) keeping its value, so
`b()` is left as it was; on an option built by the parameter constructor `b()` therefore stays
at the class-derived value of the constructor's arguments. -/
theorem setters_keep_constructed_carry {α : Type} [Field α] (o : EuropeanOption α)
    (S K T r sigma : α) (kind : CallOrPut) (u : UnderlyingType) (q Rf : α)
    (x : α) (u' : UnderlyingType) :
    ((o.set_UnderlyingType u').b = o.b ∧ (o.set_r x).b = o.b ∧ (o.set_q x).b = o.b
      ∧ (o.set_R x).b = o.b)
    ∧ (o.set_UnderlyingType u'
        = EuropeanOption.mk o.m_S o.m_K o.m_T o.m_r o.m_s o.m_b o.call_or_put u' o.m_q o.m_R
      ∧ o.set_r x
        = EuropeanOption.mk o.m_S o.m_K o.m_T x o.m_s o.m_b o.call_or_put o.underlying_type
            o.m_q o.m_R
      ∧ o.set_q x
        = EuropeanOption.mk o.m_S o.m_K o.m_T o.m_r o.m_s o.m_b o.call_or_put o.underlying_type
            x o.m_R
      ∧ o.set_R x
        = EuropeanOption.mk o.m_S o.m_K o.m_T o.m_r o.m_s o.m_b o.call_or_put o.underlying_type
            o.m_q x)
    ∧ ((EuropeanOption.construct S K T r sigma kind u q Rf).set_UnderlyingType u').b
        = classDerivedCarry u r q Rf
    ∧ ((EuropeanOption.construct S K T r sigma kind u q Rf).set_UnderlyingType u').underlying_type
        = u'
    ∧ ((EuropeanOption.construct S K T r sigma kind u q Rf).set_r x).b
        = classDerivedCarry u r q Rf
    ∧ ((EuropeanOption.construct S K T r sigma kind u q Rf).set_r x).r = x
    ∧ ((EuropeanOption.construct S K T r sigma kind u q Rf).set_q x).b
        = classDerivedCarry u r q Rf
    ∧ ((EuropeanOption.construct S K T r sigma kind u q Rf).set_q x).q = x
    ∧ ((EuropeanOption.construct S K T r sigma kind u q Rf).set_R x).b
        = classDerivedCarry u r q Rf
    ∧ ((EuropeanOption.construct S K T r sigma kind u q Rf).set_R x).R = x := by
  cases u <;>
    exact ⟨⟨rfl, rfl, rfl, rfl⟩, ⟨rfl, rfl, rfl, rfl⟩, rfl, rfl, rfl, rfl, rfl, rfl, rfl, rfl⟩

/-! ## Calculus of the standard normal distribution -/

section StandardNormalCalculus

open MeasureTheory ProbabilityTheory Set

/-- The standard normal density written out. -/
theorem phi_eq (x : ℝ) : phi x = (Real.sqrt (2 * Real.pi))⁻¹ * Real.exp (-(x ^ 2 / 2)) := by
  simp [phi, gaussianPDFReal, neg_div]

/-- The standard normal density is continuous. -/
theorem phi_continuous : Continuous phi := by
  have h : phi = fun x => (Real.sqrt (2 * Real.pi))⁻¹ * Real.exp (-(x ^ 2 / 2)) :=
    funext phi_eq
  rw [h]
  fun_prop

/-- The function `Φ` is the integral of the density over `(-∞, x]`. -/
theorem Phi_eq_integral (x : ℝ) : Phi x = ∫ t in Iic x, phi t := by
  rw [Phi_eq_toReal, gaussianReal_apply_eq_integral 0 one_ne_zero]
  exact ENNReal.toReal_ofReal
    (setIntegral_nonneg measurableSet_Iic (fun t _ => gaussianPDFReal_nonneg 0 1 t))

/-- Increments of `Φ` are interval integrals of the density. -/
theorem Phi_sub_Phi (a b : ℝ) : Phi b - Phi a = ∫ t in a..b, phi t := by
  rw [Phi_eq_integral, Phi_eq_integral]
  exact intervalIntegral.integral_Iic_sub_Iic
    (integrable_gaussianPDFReal 0 1).integrableOn (integrable_gaussianPDFReal 0 1).integrableOn

/-- The derivative of `Φ` is the density `φ`. -/
theorem Phi_hasDerivAt (x : ℝ) : HasDerivAt Phi (phi x) x := by
  have h : Phi = fun u => Phi 0 + ∫ t in (0 : ℝ)..u, phi t := by
    funext u
    rw [← Phi_sub_Phi]
    ring
  rw [h]
  exact (phi_continuous.integral_hasStrictDerivAt 0 x).hasDerivAt.const_add (Phi 0)

/-- The function `Φ` is continuous. -/
theorem Phi_continuous : Continuous Phi :=
  continuous_iff_continuousAt.2 (fun x => (Phi_hasDerivAt x).continuousAt)

/-- At the origin `Φ` is one half. -/
theorem Phi_zero : Phi 0 = 1 / 2 := by
  have h := Phi_neg 0
  rw [neg_zero] at h
  linarith

/-- At `+∞` the function `Φ` tends to 1. -/
theorem Phi_tendsto_atTop : Filter.Tendsto Phi Filter.atTop (nhds 1) :=
  tendsto_cdf_atTop _

/-- At `-∞` the function `Φ` tends to 0. -/
theorem Phi_tendsto_atBot : Filter.Tendsto Phi Filter.atBot (nhds 0) :=
  tendsto_cdf_atBot _

end StandardNormalCalculus

/-! ## Delta and Gamma as derivatives in the underlying price -/

/-- The derivative of `d1` in the underlying price is `1 / (S·σ·√T)`. -/
theorem specD1_hasDerivAt (S K T sigma b : ℝ) (hS : 0 < S) (hK : 0 < K) :
    HasDerivAt (fun x => specD1 x K T sigma b) (1 / (S * (sigma * Real.sqrt T))) S := by
  have hdiv : HasDerivAt (fun x : ℝ => x / K) (1 / K) S := (hasDerivAt_id S).div_const K
  have hlog : HasDerivAt (fun x : ℝ => Real.log (x / K)) (1 / K / (S / K)) S :=
    hdiv.log (div_pos hS hK).ne'
  have h := (hlog.add_const ((b + sigma ^ 2 / 2) * T)).div_const (sigma * Real.sqrt T)
  have hval : 1 / K / (S / K) / (sigma * Real.sqrt T) = 1 / (S * (sigma * Real.sqrt T)) := by
    field_simp
  rw [hval] at h
  exact h

/-- The Black-Scholes identity `S·e^((b−r)T)·φ(d1) = K·e^(−rT)·φ(d2)`. -/
theorem phi_d1_d2_identity (S K T r sigma b : ℝ)
    (hS : 0 < S) (hK : 0 < K) (hT : 0 < T) (hs : 0 < sigma) :
    S * Real.exp ((b - r) * T) * phi (specD1 S K T sigma b)
      = K * Real.exp (-(r * T)) * phi (specD2 S K T sigma b) := by
  have htemp : 0 < sigma * Real.sqrt T := mul_pos hs (Real.sqrt_pos.2 hT)
  have hsq : Real.sqrt T ^ 2 = T := Real.sq_sqrt hT.le
  have hd1 : specD1 S K T sigma b * (sigma * Real.sqrt T)
      = Real.log (S / K) + (b + sigma ^ 2 / 2) * T := by
    unfold specD1
    field_simp
    ring
  have hexpo : -(specD2 S K T sigma b ^ 2 / 2)
      = -(specD1 S K T sigma b ^ 2 / 2) + (Real.log (S / K) + b * T) := by
    have : specD2 S K T sigma b ^ 2
        = specD1 S K T sigma b ^ 2 - 2 * (specD1 S K T sigma b * (sigma * Real.sqrt T))
          + sigma ^ 2 * Real.sqrt T ^ 2 := by
      unfold specD2
      ring
    rw [this, hd1, hsq]
    ring
  rw [phi_eq, phi_eq, hexpo, Real.exp_add, Real.exp_add, Real.exp_log (div_pos hS hK)]
  have hbr : Real.exp ((b - r) * T) = Real.exp (-(r * T)) * Real.exp (b * T) := by
    rw [← Real.exp_add]
    congr 1
    ring
  rw [hbr]
  field_simp
  ring

/-- The call helper written with the specification's `d1` and `d2`. -/
theorem PriceAsCall_eq_spec (o : EuropeanOption ℝ) :
    o.PriceAsCall realNumerics = specCallPrice o.m_S o.m_K o.m_T o.m_r o.m_s o.m_b := by
  simp only [EuropeanOption.PriceAsCall, realNumerics, specCallPrice, specD2, specD1, neg_mul,
    pow_two]

/-- The derivative of the call price in the underlying price is `e^((b−r)T)·Φ(d1)`. -/
theorem specCallPrice_hasDerivAt (S K T r sigma b : ℝ)
    (hS : 0 < S) (hK : 0 < K) (hT : 0 < T) (hs : 0 < sigma) :
    HasDerivAt (fun x => specCallPrice x K T r sigma b)
      (Real.exp ((b - r) * T) * Phi (specD1 S K T sigma b)) S := by
  have hd1 := specD1_hasDerivAt S K T sigma b hS hK
  have hd2 : HasDerivAt (fun x => specD2 x K T sigma b)
      (1 / (S * (sigma * Real.sqrt T))) S := by
    unfold specD2
    exact hd1.sub_const _
  have hP1 := (Phi_hasDerivAt (specD1 S K T sigma b)).comp S hd1
  have hP2 := (Phi_hasDerivAt (specD2 S K T sigma b)).comp S hd2
  have hlin : HasDerivAt (fun x : ℝ => x * Real.exp ((b - r) * T)) (Real.exp ((b - r) * T)) S := by
    simpa using (hasDerivAt_id S).mul_const (Real.exp ((b - r) * T))
  have h := (hlin.mul hP1).sub (hP2.const_mul (K * Real.exp (-(r * T))))
  have hid := phi_d1_d2_identity S K T r sigma b hS hK hT hs
  refine HasDerivAt.congr_deriv h ?_
  have e : S * Real.exp ((b - r) * T) * (phi (specD1 S K T sigma b)
        * (1 / (S * (sigma * Real.sqrt T))))
      = K * Real.exp (-(r * T)) * (phi (specD2 S K T sigma b)
        * (1 / (S * (sigma * Real.sqrt T)))) := by
    rw [← mul_assoc, hid, mul_assoc]
  simp only [Function.comp_apply]
  linarith


/-- C11. Delta is the partial derivative of the price in the underlying: for K, T, sigma
positive, any r, b and either kind, the function `S ↦ Price()` (other fields fixed) has at every
`S > 0` the derivative `Delta()` of the option with that S; in particular it is differentiable
there. -/
theorem delta_is_price_derivative (o : EuropeanOption ℝ) (S : ℝ)
    (hK : 0 < o.m_K) (hT : 0 < o.m_T) (hs : 0 < o.m_s) (hS : 0 < S) :
    HasDerivAt (fun x => EuropeanOption.Price realNumerics { o with m_S := x })
      (EuropeanOption.Delta realNumerics { o with m_S := S }) S := by
  have hcall := specCallPrice_hasDerivAt S o.m_K o.m_T o.m_r o.m_s o.m_b hS hK hT hs
  have hkind : o.call_or_put = CallOrPut.CALL ∨ o.call_or_put = CallOrPut.PUT := by
    cases o.call_or_put <;> simp
  rcases hkind with hk | hk
  · have hf : (fun x => EuropeanOption.Price realNumerics { o with m_S := x })
        = fun x => specCallPrice x o.m_K o.m_T o.m_r o.m_s o.m_b := by
      funext x
      simp only [EuropeanOption.Price, hk, if_true, PriceAsCall_eq_spec]
    rw [hf]
    refine HasDerivAt.congr_deriv hcall ?_
    simp [EuropeanOption.Delta, hk, realNumerics, specD1, pow_two]
  · have hf : (fun x => EuropeanOption.Price realNumerics { o with m_S := x })
        = fun x => specCallPrice x o.m_K o.m_T o.m_r o.m_s o.m_b
            - (x * Real.exp ((o.m_b - o.m_r) * o.m_T) - o.m_K * Real.exp (-(o.m_r * o.m_T))) := by
      funext x
      have hpar := PriceAsCall_sub_PriceAsPut { o with m_S := x }
      rw [PriceAsCall_eq_spec] at hpar
      dsimp only at hpar
      have hP : EuropeanOption.Price realNumerics { o with m_S := x }
          = EuropeanOption.PriceAsPut realNumerics { o with m_S := x } := by
        unfold EuropeanOption.Price
        exact if_neg (by simp [hk])
      rw [hP]
      linarith
    rw [hf]
    have hlin : HasDerivAt
        (fun x : ℝ => x * Real.exp ((o.m_b - o.m_r) * o.m_T)
          - o.m_K * Real.exp (-(o.m_r * o.m_T)))
        (Real.exp ((o.m_b - o.m_r) * o.m_T)) S := by
      simpa using ((hasDerivAt_id S).mul_const (Real.exp ((o.m_b - o.m_r) * o.m_T))).sub_const
        (o.m_K * Real.exp (-(o.m_r * o.m_T)))
    refine HasDerivAt.congr_deriv (hcall.sub hlin) ?_
    simp only [EuropeanOption.Delta, hk, realNumerics, reduceCtorEq, decide_False,
      Bool.false_eq_true, if_false, neg_one_mul, Phi_neg, specD1, pow_two]
    ring

/-- C11 at the FUTURES call of `main.cpp` (K=100, T=0.5, r=0.1, sigma=0.36, b=0) and S=105. -/
theorem delta_is_price_derivative_witness :
    HasDerivAt (fun x => EuropeanOption.Price realNumerics { futuresCall ℝ with m_S := x })
      (EuropeanOption.Delta realNumerics { futuresCall ℝ with m_S := 105 }) 105 :=
  delta_is_price_derivative (futuresCall ℝ) 105
    (by norm_num [futuresCall, EuropeanOption.construct])
    (by norm_num [futuresCall, EuropeanOption.construct])
    (by norm_num [futuresCall, EuropeanOption.construct]) (by norm_num)

/-- The method `Delta()` written with the specification's formula. -/
theorem Delta_eq_spec (o : EuropeanOption ℝ) :
    o.Delta realNumerics = specDelta o.call_or_put o.m_S o.m_K o.m_T o.m_r o.m_s o.m_b := by
  cases hk : o.call_or_put <;>
    simp [EuropeanOption.Delta, hk, realNumerics, specDelta, specSign, specD1, pow_two]

/-- The method `Gamma()` written with the specification's `sign` and `d1`. -/
theorem Gamma_eq_sign (o : EuropeanOption ℝ) :
    o.Gamma realNumerics
      = phi (specSign o.call_or_put * specD1 o.m_S o.m_K o.m_T o.m_s o.m_b)
          * Real.exp ((o.m_b - o.m_r) * o.m_T) / (o.m_S * (o.m_s * Real.sqrt o.m_T)) := by
  cases hk : o.call_or_put <;>
    simp [EuropeanOption.Gamma, hk, realNumerics, specSign, specD1, pow_two]

/-- C12. Gamma is the second partial derivative of the price in the underlying: for K, T,
sigma positive, any r, b and either kind, the function `S ↦ Delta()` has at every `S > 0` the
derivative `Gamma()` of the option with that S; in particular it is differentiable there. -/
theorem gamma_is_delta_derivative (o : EuropeanOption ℝ) (S : ℝ)
    (hK : 0 < o.m_K) (_hT : 0 < o.m_T) (_hs : 0 < o.m_s) (hS : 0 < S) :
    HasDerivAt (fun x => EuropeanOption.Delta realNumerics { o with m_S := x })
      (EuropeanOption.Gamma realNumerics { o with m_S := S }) S := by
  have hd1 := specD1_hasDerivAt S o.m_K o.m_T o.m_s o.m_b hS hK
  have hf : (fun x => EuropeanOption.Delta realNumerics { o with m_S := x })
      = fun x => specDelta o.call_or_put x o.m_K o.m_T o.m_r o.m_s o.m_b := by
    funext x
    rw [Delta_eq_spec]
  rw [hf]
  have h := ((Phi_hasDerivAt (specSign o.call_or_put * specD1 S o.m_K o.m_T o.m_s o.m_b)).comp S
    (hd1.const_mul (specSign o.call_or_put))).const_mul
      (specSign o.call_or_put * Real.exp ((o.m_b - o.m_r) * o.m_T))
  refine HasDerivAt.congr_deriv h ?_
  have hsq : (specSign o.call_or_put : ℝ) * specSign o.call_or_put = 1 := by
    cases o.call_or_put <;> simp [specSign]
  rw [Gamma_eq_sign]
  dsimp only
  calc specSign o.call_or_put * Real.exp ((o.m_b - o.m_r) * o.m_T)
        * (phi (specSign o.call_or_put * specD1 S o.m_K o.m_T o.m_s o.m_b)
          * (specSign o.call_or_put * (1 / (S * (o.m_s * Real.sqrt o.m_T)))))
      = (specSign o.call_or_put * specSign o.call_or_put)
        * (phi (specSign o.call_or_put * specD1 S o.m_K o.m_T o.m_s o.m_b)
          * Real.exp ((o.m_b - o.m_r) * o.m_T) / (S * (o.m_s * Real.sqrt o.m_T))) := by ring
    _ = phi (specSign o.call_or_put * specD1 S o.m_K o.m_T o.m_s o.m_b)
          * Real.exp ((o.m_b - o.m_r) * o.m_T) / (S * (o.m_s * Real.sqrt o.m_T)) := by
        rw [hsq, one_mul]

/-- C12 at the FUTURES call of `main.cpp` (K=100, T=0.5, r=0.1, sigma=0.36, b=0) and S=105. -/
theorem gamma_is_delta_derivative_witness :
    HasDerivAt (fun x => EuropeanOption.Delta realNumerics { futuresCall ℝ with m_S := x })
      (EuropeanOption.Gamma realNumerics { futuresCall ℝ with m_S := 105 }) 105 :=
  gamma_is_delta_derivative (futuresCall ℝ) 105
    (by norm_num [futuresCall, EuropeanOption.construct])
    (by norm_num [futuresCall, EuropeanOption.construct])
    (by norm_num [futuresCall, EuropeanOption.construct]) (by norm_num)

/-! ## Boundary convergence as the maturity shrinks -/

section Boundary

open Filter Topology

/-- As `T → 0⁺`, `σ·√T` tends to 0 through positive values. -/
theorem sigma_sqrt_tendsto (sigma : ℝ) (hs : 0 < sigma) :
    Tendsto (fun T : ℝ => sigma * Real.sqrt T) (𝓝[>] 0) (𝓝[>] 0) := by
  refine tendsto_nhdsWithin_iff.2 ⟨?_, ?_⟩
  · have hc : Continuous fun T : ℝ => sigma * Real.sqrt T :=
      continuous_const.mul Real.continuous_sqrt
    have h0 := hc.tendsto 0
    simp only [Real.sqrt_zero, mul_zero] at h0
    exact h0.mono_left nhdsWithin_le_nhds
  · exact eventually_nhdsWithin_of_forall
      (fun T hT => mul_pos hs (Real.sqrt_pos.2 hT))

/-- As `T → 0⁺`, `d1` and `d2` both tend to `+∞` when `S > K`, to `-∞` when `S < K`, and to 0
when `S = K`; in each case `Φ(d1)` and `Φ(d2)` share the limit 1, 0 or 1/2. -/
theorem Phi_d1_d2_tendsto (S K sigma b : ℝ) (hS : 0 < S) (hK : 0 < K) (hs : 0 < sigma) :
    ∃ l : ℝ, Tendsto (fun T => Phi (specD1 S K T sigma b)) (𝓝[>] 0) (𝓝 l)
      ∧ Tendsto (fun T => Phi (specD2 S K T sigma b)) (𝓝[>] 0) (𝓝 l)
      ∧ S * l - K * l = max (S - K) 0 := by
  have htemp := sigma_sqrt_tendsto sigma hs
  have htemp0 : Tendsto (fun T : ℝ => sigma * Real.sqrt T) (𝓝[>] 0) (𝓝 0) :=
    htemp.mono_right nhdsWithin_le_nhds
  have hnegtemp : Tendsto (fun T : ℝ => -(sigma * Real.sqrt T)) (𝓝[>] 0) (𝓝 0) := by
    simpa using htemp0.neg
  have hinv : Tendsto (fun T : ℝ => (sigma * Real.sqrt T)⁻¹) (𝓝[>] 0) atTop :=
    tendsto_inv_zero_atTop.comp htemp
  have hnum : Tendsto (fun T : ℝ => Real.log (S / K) + (b + sigma ^ 2 / 2) * T) (𝓝[>] 0)
      (𝓝 (Real.log (S / K))) := by
    have hc : Continuous fun T : ℝ => Real.log (S / K) + (b + sigma ^ 2 / 2) * T := by
      fun_prop
    have h0 := hc.tendsto 0
    simp only [mul_zero, add_zero] at h0
    exact h0.mono_left nhdsWithin_le_nhds
  have hd1 : (fun T => specD1 S K T sigma b)
      = fun T => (Real.log (S / K) + (b + sigma ^ 2 / 2) * T) * (sigma * Real.sqrt T)⁻¹ := by
    funext T
    rw [specD1, div_eq_mul_inv]
  have hd2 : (fun T => specD2 S K T sigma b)
      = fun T => specD1 S K T sigma b + -(sigma * Real.sqrt T) := by
    funext T
    rw [specD2, sub_eq_add_neg]
  rcases lt_trichotomy K S with hlt | heq | hgt
  · -- S > K
    have hL : 0 < Real.log (S / K) := Real.log_pos ((one_lt_div hK).2 hlt)
    have h1 : Tendsto (fun T => specD1 S K T sigma b) (𝓝[>] 0) atTop := by
      rw [hd1]
      exact hnum.mul_atTop hL hinv
    have h2 : Tendsto (fun T => specD2 S K T sigma b) (𝓝[>] 0) atTop := by
      rw [hd2]
      exact h1.atTop_add hnegtemp
    refine ⟨1, Phi_tendsto_atTop.comp h1, Phi_tendsto_atTop.comp h2, ?_⟩
    rw [max_eq_left (sub_nonneg.2 hlt.le)]
    ring
  · -- S = K
    subst heq
    have hform : (fun T => specD1 K K T sigma b)
        = fun T => (b + sigma ^ 2 / 2) / sigma * Real.sqrt T := by
      funext T
      rw [specD1, div_self hK.ne', Real.log_one, zero_add, mul_div_mul_comm, Real.div_sqrt]
    have h1 : Tendsto (fun T => specD1 K K T sigma b) (𝓝[>] 0) (𝓝 0) := by
      rw [hform]
      have hc : Continuous fun T : ℝ => (b + sigma ^ 2 / 2) / sigma * Real.sqrt T :=
        continuous_const.mul Real.continuous_sqrt
      have h0 := hc.tendsto 0
      simp only [Real.sqrt_zero, mul_zero] at h0
      exact h0.mono_left nhdsWithin_le_nhds
    have h2 : Tendsto (fun T => specD2 K K T sigma b) (𝓝[>] 0) (𝓝 0) := by
      rw [hd2]
      simpa using h1.add hnegtemp
    have hPhi0 : Tendsto Phi (𝓝 0) (𝓝 (1 / 2)) := by
      have := Phi_continuous.tendsto 0
      rwa [Phi_zero] at this
    refine ⟨1 / 2, hPhi0.comp h1, hPhi0.comp h2, ?_⟩
    simp
  · -- S < K
    have hL : Real.log (S / K) < 0 := Real.log_neg (div_pos hS hK) ((div_lt_one hK).2 hgt)
    have h1 : Tendsto (fun T => specD1 S K T sigma b) (𝓝[>] 0) atBot := by
      rw [hd1]
      exact hnum.neg_mul_atTop hL hinv
    have h2 : Tendsto (fun T => specD2 S K T sigma b) (𝓝[>] 0) atBot := by
      rw [hd2]
      exact h1.atBot_add hnegtemp
    refine ⟨0, Phi_tendsto_atBot.comp h1, Phi_tendsto_atBot.comp h2, ?_⟩
    rw [max_eq_right (sub_nonpos.2 hgt.le)]
    ring

/-- As `T → 0⁺` the discount factor `exp(c·T)` tends to 1. -/
theorem exp_mul_tendsto_one (c : ℝ) :
    Tendsto (fun T : ℝ => Real.exp (c * T)) (𝓝[>] 0) (𝓝 1) := by
  have hc : Continuous fun T : ℝ => Real.exp (c * T) := by fun_prop
  have h0 := hc.tendsto 0
  simp only [mul_zero, Real.exp_zero] at h0
  exact h0.mono_left nhdsWithin_le_nhds

/-- As `T → 0⁺` the call price tends to the payoff `max(S − K, 0)`. -/
theorem specCallPrice_tendsto (S K r sigma b : ℝ) (hS : 0 < S) (hK : 0 < K) (hs : 0 < sigma) :
    Tendsto (fun T => specCallPrice S K T r sigma b) (𝓝[>] 0) (𝓝 (max (S - K) 0)) := by
  obtain ⟨l, h1, h2, hl⟩ := Phi_d1_d2_tendsto S K sigma b hS hK hs
  have hA := exp_mul_tendsto_one (b - r)
  have hB : Tendsto (fun T : ℝ => Real.exp (-(r * T))) (𝓝[>] 0) (𝓝 1) := by
    simpa [neg_mul] using exp_mul_tendsto_one (-r)
  have h := ((hA.const_mul S).mul h1).sub ((hB.const_mul K).mul h2)
  simp only [mul_one] at h
  rw [hl] at h
  exact h

end Boundary

/-- C18. Boundary convergence: for fixed S, K, sigma positive and any r, b, as T tends to 0
from above the CALL `Price()` tends to `max(S-K, 0)` and the PUT `Price()` tends to
`max(K-S, 0)`, the at-the-money case S = K included. -/
theorem price_boundary_convergence (o : EuropeanOption ℝ)
    (hS : 0 < o.m_S) (hK : 0 < o.m_K) (hs : 0 < o.m_s) :
    Filter.Tendsto
        (fun T => EuropeanOption.Price realNumerics
          { o with m_T := T, call_or_put := CallOrPut.CALL })
        (nhdsWithin 0 (Set.Ioi 0)) (nhds (max (o.m_S - o.m_K) 0))
    ∧ Filter.Tendsto
        (fun T => EuropeanOption.Price realNumerics
          { o with m_T := T, call_or_put := CallOrPut.PUT })
        (nhdsWithin 0 (Set.Ioi 0)) (nhds (max (o.m_K - o.m_S) 0)) := by
  have hcall := specCallPrice_tendsto o.m_S o.m_K o.m_r o.m_s o.m_b hS hK hs
  have hfc : (fun T => EuropeanOption.Price realNumerics
        { o with m_T := T, call_or_put := CallOrPut.CALL })
      = fun T => specCallPrice o.m_S o.m_K T o.m_r o.m_s o.m_b := by
    funext T
    simp only [EuropeanOption.Price, if_true, PriceAsCall_eq_spec]
  have hfp : (fun T => EuropeanOption.Price realNumerics
        { o with m_T := T, call_or_put := CallOrPut.PUT })
      = fun T => specCallPrice o.m_S o.m_K T o.m_r o.m_s o.m_b
          - (o.m_S * Real.exp ((o.m_b - o.m_r) * T) - o.m_K * Real.exp (-(o.m_r * T))) := by
    funext T
    have hpar := PriceAsCall_sub_PriceAsPut { o with m_T := T, call_or_put := CallOrPut.PUT }
    rw [PriceAsCall_eq_spec] at hpar
    dsimp only at hpar
    simp only [EuropeanOption.Price, reduceCtorEq, if_false]
    linarith
  refine ⟨by rw [hfc]; exact hcall, ?_⟩
  rw [hfp]
  have hA := (exp_mul_tendsto_one (o.m_b - o.m_r)).const_mul o.m_S
  have hB : Filter.Tendsto (fun T : ℝ => o.m_K * Real.exp (-(o.m_r * T)))
      (nhdsWithin 0 (Set.Ioi 0)) (nhds (o.m_K * 1)) := by
    have := (exp_mul_tendsto_one (-o.m_r)).const_mul o.m_K
    simpa [neg_mul] using this
  have h := hcall.sub (hA.sub hB)
  have hval : max (o.m_S - o.m_K) 0 - (o.m_S * 1 - o.m_K * 1) = max (o.m_K - o.m_S) 0 := by
    rcases le_total o.m_K o.m_S with hle | hle
    · rw [max_eq_left (sub_nonneg.2 hle), max_eq_right (sub_nonpos.2 hle)]
      ring
    · rw [max_eq_right (sub_nonpos.2 hle), max_eq_left (sub_nonneg.2 hle)]
      ring
  rw [hval] at h
  exact h

/-- C18 at the batch-1 options of `main.cpp` (S=60, K=65, sigma=0.30, r=0.08, b=0.08): the
CALL price tends to `max(60-65, 0)` and the PUT price to `max(65-60, 0)`. -/
theorem price_boundary_convergence_witness :
    Filter.Tendsto
        (fun T => EuropeanOption.Price realNumerics
          { batch1 ℝ CallOrPut.CALL with m_T := T, call_or_put := CallOrPut.CALL })
        (nhdsWithin 0 (Set.Ioi 0)) (nhds (max (60 - 65) 0))
    ∧ Filter.Tendsto
        (fun T => EuropeanOption.Price realNumerics
          { batch1 ℝ CallOrPut.CALL with m_T := T, call_or_put := CallOrPut.PUT })
        (nhdsWithin 0 (Set.Ioi 0)) (nhds (max (65 - 60) 0)) :=
  price_boundary_convergence (batch1 ℝ CallOrPut.CALL)
    (by norm_num [batch1, EuropeanOption.construct])
    (by norm_num [batch1, EuropeanOption.construct])
    (by norm_num [batch1, EuropeanOption.construct])

/-! ## Numerical enclosure of the standard normal distribution -/

section NumericalBounds

/-- For `|t| ≤ 1` the Gaussian kernel `exp(-t²/2)` lies within `t¹⁰/3200` of its Taylor
polynomial of degree 8. -/
theorem exp_neg_half_sq_bounds (t : ℝ) (ht : |t| ≤ 1) :
    1 - t ^ 2 / 2 + t ^ 4 / 8 - t ^ 6 / 48 + t ^ 8 / 384 - t ^ 10 / 3200
        ≤ Real.exp (-(t ^ 2 / 2))
    ∧ Real.exp (-(t ^ 2 / 2))
        ≤ 1 - t ^ 2 / 2 + t ^ 4 / 8 - t ^ 6 / 48 + t ^ 8 / 384 + t ^ 10 / 3200 := by
  have ht2 : t ^ 2 ≤ 1 := by
    have := sq_le_one_iff_abs_le_one t
    exact this.2 ht
  have hx : |(-(t ^ 2 / 2))| ≤ 1 := by
    rw [abs_neg, abs_of_nonneg (by positivity)]
    linarith
  have h := Real.exp_bound hx (show 0 < 5 by norm_num)
  have habs : |(-(t ^ 2 / 2))| = t ^ 2 / 2 := by
    rw [abs_neg, abs_of_nonneg (by positivity)]
  rw [habs] at h
  simp only [Finset.sum_range_succ, Finset.sum_range_zero, Nat.factorial] at h
  norm_num at h
  have h' := abs_le.1 h
  constructor
  · nlinarith [h'.1]
  · nlinarith [h'.2]

/-- An antiderivative of the Taylor polynomial of the Gaussian kernel with the error term
`c·t¹⁰/3200` added. -/
theorem gauss_poly_hasDerivAt (c t : ℝ) :
    HasDerivAt
      (fun x : ℝ => x - x ^ 3 / 6 + x ^ 5 / 40 - x ^ 7 / 336 + x ^ 9 / 3456
        + c * (x ^ 11 / 35200))
      (1 - t ^ 2 / 2 + t ^ 4 / 8 - t ^ 6 / 48 + t ^ 8 / 384 + c * (t ^ 10 / 3200)) t := by
  have h1 := hasDerivAt_id t
  have h3 := (hasDerivAt_pow 3 t).div_const 6
  have h5 := (hasDerivAt_pow 5 t).div_const 40
  have h7 := (hasDerivAt_pow 7 t).div_const 336
  have h9 := (hasDerivAt_pow 9 t).div_const 3456
  have h11 := ((hasDerivAt_pow 11 t).div_const 35200).const_mul c
  have h := ((((h1.sub h3).add h5).sub h7).add h9).add h11
  refine HasDerivAt.congr_deriv h ?_
  norm_num
  ring

/-- For `0 ≤ x ≤ 1` the integral of the Gaussian kernel over `[0, x]` lies within
`x¹¹/35200` of `x - x³/6 + x⁵/40 - x⁷/336 + x⁹/3456`. -/
theorem gauss_integral_bounds (x : ℝ) (h0 : 0 ≤ x) (h1 : x ≤ 1) :
    x - x ^ 3 / 6 + x ^ 5 / 40 - x ^ 7 / 336 + x ^ 9 / 3456 - x ^ 11 / 35200
        ≤ ∫ t in (0 : ℝ)..x, Real.exp (-(t ^ 2 / 2))
    ∧ ∫ t in (0 : ℝ)..x, Real.exp (-(t ^ 2 / 2))
        ≤ x - x ^ 3 / 6 + x ^ 5 / 40 - x ^ 7 / 336 + x ^ 9 / 3456 + x ^ 11 / 35200 := by
  have hker : Continuous fun t : ℝ => Real.exp (-(t ^ 2 / 2)) := by fun_prop
  have hpoly : ∀ c : ℝ, Continuous fun t : ℝ =>
      1 - t ^ 2 / 2 + t ^ 4 / 8 - t ^ 6 / 48 + t ^ 8 / 384 + c * (t ^ 10 / 3200) := by
    intro c
    fun_prop
  have hkerI : IntervalIntegrable (fun t : ℝ => Real.exp (-(t ^ 2 / 2)))
      MeasureTheory.volume 0 x := hker.intervalIntegrable 0 x
  have hpolyI : ∀ c : ℝ, IntervalIntegrable
      (fun t : ℝ =>
        1 - t ^ 2 / 2 + t ^ 4 / 8 - t ^ 6 / 48 + t ^ 8 / 384 + c * (t ^ 10 / 3200))
      MeasureTheory.volume 0 x := fun c => (hpoly c).intervalIntegrable 0 x
  have hint : ∀ c : ℝ,
      ∫ t in (0 : ℝ)..x,
          (1 - t ^ 2 / 2 + t ^ 4 / 8 - t ^ 6 / 48 + t ^ 8 / 384 + c * (t ^ 10 / 3200))
        = x - x ^ 3 / 6 + x ^ 5 / 40 - x ^ 7 / 336 + x ^ 9 / 3456 + c * (x ^ 11 / 35200) := by
    intro c
    rw [intervalIntegral.integral_eq_sub_of_hasDerivAt
      (fun t _ => gauss_poly_hasDerivAt c t) (hpolyI c)]
    norm_num
  have hmem : ∀ t ∈ Set.Icc (0 : ℝ) x, |t| ≤ 1 := by
    intro t ht
    rw [abs_of_nonneg ht.1]
    exact ht.2.trans h1
  constructor
  · have h := intervalIntegral.integral_mono_on h0 (hpolyI (-1)) hkerI
      (fun t ht => by
        have hb := (exp_neg_half_sq_bounds t (hmem t ht)).1
        linarith)
    rw [hint (-1)] at h
    linarith
  · have h := intervalIntegral.integral_mono_on h0 hkerI (hpolyI 1)
      (fun t ht => by
        have hb := (exp_neg_half_sq_bounds t (hmem t ht)).2
        linarith)
    rw [hint 1] at h
    linarith

/-- The normalising constant `1/√(2π)` lies between 0.3989422 and 0.3989424. -/
theorem inv_sqrt_two_pi_bounds :
    (0.3989422 : ℝ) < (Real.sqrt (2 * Real.pi))⁻¹
    ∧ (Real.sqrt (2 * Real.pi))⁻¹ < (0.3989424 : ℝ) := by
  have hlo := Real.pi_gt_d6
  have hhi := Real.pi_lt_d6
  have hpos : 0 < Real.sqrt (2 * Real.pi) := Real.sqrt_pos.2 (by positivity)
  constructor
  · rw [lt_inv_comm₀ (by norm_num) hpos]
    rw [Real.sqrt_lt' (by norm_num)]
    norm_num
    linarith
  · rw [inv_lt_comm₀ hpos (by norm_num)]
    rw [Real.lt_sqrt (by norm_num)]
    norm_num
    linarith

/-- For `0 ≤ x ≤ 1`, `Φ(x) - 1/2` is enclosed by the normalising constant times the polynomial
enclosure of the Gaussian integral. -/
theorem Phi_sub_half_bounds (x : ℝ) (h0 : 0 ≤ x) (h1 : x ≤ 1) :
    0.3989422 * (x - x ^ 3 / 6 + x ^ 5 / 40 - x ^ 7 / 336 + x ^ 9 / 3456 - x ^ 11 / 35200)
        ≤ Phi x - 1 / 2
    ∧ Phi x - 1 / 2
        ≤ 0.3989424
          * (x - x ^ 3 / 6 + x ^ 5 / 40 - x ^ 7 / 336 + x ^ 9 / 3456 + x ^ 11 / 35200) := by
  have hI : Phi x - 1 / 2
      = (Real.sqrt (2 * Real.pi))⁻¹ * ∫ t in (0 : ℝ)..x, Real.exp (-(t ^ 2 / 2)) := by
    rw [← Phi_zero, Phi_sub_Phi, ← intervalIntegral.integral_const_mul]
    congr 1
    funext t
    exact phi_eq t
  have hJ := gauss_integral_bounds x h0 h1
  have hc := inv_sqrt_two_pi_bounds
  have hJ0 : 0 ≤ ∫ t in (0 : ℝ)..x, Real.exp (-(t ^ 2 / 2)) :=
    intervalIntegral.integral_nonneg h0 (fun t _ => (Real.exp_pos _).le)
  rw [hI]
  constructor
  · calc 0.3989422
          * (x - x ^ 3 / 6 + x ^ 5 / 40 - x ^ 7 / 336 + x ^ 9 / 3456 - x ^ 11 / 35200)
        ≤ 0.3989422 * ∫ t in (0 : ℝ)..x, Real.exp (-(t ^ 2 / 2)) :=
          mul_le_mul_of_nonneg_left hJ.1 (by norm_num)
      _ ≤ (Real.sqrt (2 * Real.pi))⁻¹ * ∫ t in (0 : ℝ)..x, Real.exp (-(t ^ 2 / 2)) :=
          mul_le_mul_of_nonneg_right hc.1.le hJ0
  · calc (Real.sqrt (2 * Real.pi))⁻¹ * ∫ t in (0 : ℝ)..x, Real.exp (-(t ^ 2 / 2))
        ≤ 0.3989424 * ∫ t in (0 : ℝ)..x, Real.exp (-(t ^ 2 / 2)) :=
          mul_le_mul_of_nonneg_right hc.2.le hJ0
      _ ≤ 0.3989424
          * (x - x ^ 3 / 6 + x ^ 5 / 40 - x ^ 7 / 336 + x ^ 9 / 3456 + x ^ 11 / 35200) :=
          mul_le_mul_of_nonneg_left hJ.2 (by norm_num)

end NumericalBounds

/-! ## The reference fixture -/

/-- Bounds on `log(60/65)`, from the series of `log(1 - x)` at `x = 1/13`. -/
theorem log_60_65_bounds :
    (-0.080042709 : ℝ) < Real.log (60 / 65) ∧ Real.log (60 / 65) < (-0.080042706 : ℝ) := by
  have hx : |(1 / 13 : ℝ)| < 1 := by
    rw [abs_of_pos (by norm_num)]
    norm_num
  have h := Real.abs_log_sub_add_sum_range_le hx 7
  rw [abs_of_pos (by norm_num : (0 : ℝ) < 1 / 13)] at h
  have e : (1 - 1 / 13 : ℝ) = 60 / 65 := by norm_num
  rw [e] at h
  simp only [Finset.sum_range_succ, Finset.sum_range_zero] at h
  norm_num at h
  have h' := abs_le.1 h
  constructor
  · linarith [h'.1]
  · linarith [h'.2]

/-- Bounds on the discount factor `exp(-0.02)`. -/
theorem exp_neg_fiftieth_bounds :
    (0.98019867 : ℝ) < Real.exp (-(1 / 50)) ∧ Real.exp (-(1 / 50)) < (0.98019868 : ℝ) := by
  have hx : |(-(1 / 50) : ℝ)| ≤ 1 := by
    rw [abs_neg, abs_of_pos (by norm_num)]
    norm_num
  have h := Real.exp_bound hx (show 0 < 5 by norm_num)
  rw [abs_neg, abs_of_pos (by norm_num : (0 : ℝ) < 1 / 50)] at h
  simp only [Finset.sum_range_succ, Finset.sum_range_zero, Nat.factorial] at h
  norm_num at h
  have h' := abs_le.1 h
  constructor
  · linarith [h'.1]
  · linarith [h'.2]

/-- Enclosures of `Φ` at the fixture's `-d1` and `-d2`:
`Φ(a) - 1/2 ∈ [0.1275171, 0.1275173]` and `Φ(a + 0.15) - 1/2 ∈ [0.1827078, 0.1827081]`
for every `a` between 0.32528470 and 0.32528473. -/
theorem Phi_fixture_enclosure (a : ℝ) (hlo : (0.32528470 : ℝ) < a) (hhi : a < (0.32528473 : ℝ)) :
    ((0.1275171 : ℝ) ≤ Phi a - 1 / 2 ∧ Phi a - 1 / 2 ≤ (0.1275173 : ℝ))
    ∧ ((0.1827078 : ℝ) ≤ Phi (a + 3 / 20) - 1 / 2
      ∧ Phi (a + 3 / 20) - 1 / 2 ≤ (0.1827081 : ℝ)) := by
  have h1 := (Phi_sub_half_bounds 0.32528470 (by norm_num) (by norm_num)).1
  have h2 := (Phi_sub_half_bounds 0.32528473 (by norm_num) (by norm_num)).2
  have h3 := (Phi_sub_half_bounds (0.32528470 + 3 / 20) (by norm_num) (by norm_num)).1
  have h4 := (Phi_sub_half_bounds (0.32528473 + 3 / 20) (by norm_num) (by norm_num)).2
  have m1 := Phi_lt_Phi hlo
  have m2 := Phi_lt_Phi hhi
  have m3 : Phi (0.32528470 + 3 / 20) < Phi (a + 3 / 20) := Phi_lt_Phi (by linarith)
  have m4 : Phi (a + 3 / 20) < Phi (0.32528473 + 3 / 20) := Phi_lt_Phi (by linarith)
  norm_num at h1 h2 h3 h4
  refine ⟨⟨?_, ?_⟩, ?_, ?_⟩ <;> linarith

/-- The batch-1 prices of `main.cpp` in terms of `Φ` at `a = -d1` and `a + 0.15 = -d2`. -/
theorem batch1_prices :
    (batch1 ℝ CallOrPut.CALL).Price realNumerics
        = 60 * Phi (-(-(Real.log (60 / 65) + 1 / 32) / (3 / 20)))
          - 65 * Real.exp (-(1 / 50))
            * Phi (-(-(Real.log (60 / 65) + 1 / 32) / (3 / 20) + 3 / 20))
    ∧ (batch1 ℝ CallOrPut.PUT).Price realNumerics
        = 65 * Real.exp (-(1 / 50)) * Phi (-(Real.log (60 / 65) + 1 / 32) / (3 / 20) + 3 / 20)
          - 60 * Phi (-(Real.log (60 / 65) + 1 / 32) / (3 / 20)) := by
  have hsqrt : Real.sqrt (1 / 4) = 1 / 2 := by
    rw [show (1 / 4 : ℝ) = (1 / 2) ^ 2 by norm_num, Real.sqrt_sq (by norm_num)]
  have hd1 : (Real.log (60 / 65) + (8 / 100 + 3 / 10 * (3 / 10) / 2) * (1 / 4))
      / (3 / 10 * (1 / 2)) = (Real.log (60 / 65) + 1 / 32) / (3 / 20) := by
    norm_num
  have hexp : Real.exp (-(8 / 100) * (1 / 4)) = Real.exp (-(1 / 50)) := by
    congr 1
    norm_num
  constructor
  · simp only [EuropeanOption.Price, batch1, EuropeanOption.construct, if_true,
      EuropeanOption.PriceAsCall, realNumerics, hsqrt, sub_self, zero_mul, Real.exp_zero,
      mul_one, hd1, hexp]
    congr 2
    · congr 1
      ring
    · congr 1
      ring
  · simp only [EuropeanOption.Price, batch1, EuropeanOption.construct, reduceCtorEq, if_false,
      EuropeanOption.PriceAsPut, realNumerics, hsqrt, sub_self, zero_mul, Real.exp_zero,
      mul_one, hd1, hexp]
    congr 2
    · congr 1
      ring
    · congr 1
      ring

/-- C19. Reference fixture: for S=60, K=65, T=0.25, r=0.08, sigma=0.30, STOCK, over the reals,
the CALL `Price()` lies within 0.0001 of 2.1334 and the PUT `Price()` within 0.0001 of
5.8463. -/
theorem reference_fixture :
    |(batch1 ℝ CallOrPut.CALL).Price realNumerics - 2.1334| < 0.0001
    ∧ |(batch1 ℝ CallOrPut.PUT).Price realNumerics - 5.8463| < 0.0001 := by
  have hL := log_60_65_bounds
  have hE := exp_neg_fiftieth_bounds
  have ha_lo : (0.32528470 : ℝ) < -(Real.log (60 / 65) + 1 / 32) / (3 / 20) := by
    rw [lt_div_iff₀ (by norm_num)]
    linarith [hL.2]
  have ha_hi : -(Real.log (60 / 65) + 1 / 32) / (3 / 20) < (0.32528473 : ℝ) := by
    rw [div_lt_iff₀ (by norm_num)]
    linarith [hL.1]
  obtain ⟨⟨hIa_lo, hIa_hi⟩, hIb_lo, hIb_hi⟩ := Phi_fixture_enclosure _ ha_lo ha_hi
  have hE0 : 0 < Real.exp (-(1 / 50)) := Real.exp_pos _
  rw [batch1_prices.1, batch1_prices.2, Phi_neg, Phi_neg, abs_lt, abs_lt]
  refine ⟨⟨?_, ?_⟩, ?_, ?_⟩
  · nlinarith [hE.1, hE.2, hIa_lo, hIa_hi, hIb_lo, hIb_hi]
  · nlinarith [hE.1, hE.2, hIa_lo, hIa_hi, hIb_lo, hIb_hi]
  · nlinarith [hE.1, hE.2, hIa_lo, hIa_hi, hIb_lo, hIb_hi]
  · nlinarith [hE.1, hE.2, hIa_lo, hIa_hi, hIb_lo, hIb_hi]

/-! ## Mesh construction -/

/-- C21. With a step of 0.5 the mesh overshoots its end: `CreateMesh(99, 101, 0.5)` is
`[99, 99.5, 100, 100.5, 101, 101.5]`, whose last element is 101.5 and not `mesh_end = 101`,
because the loop runs while `start < mesh_end + 1`; the demo's `CreateMesh(99, 101, 1)` is
`[99, 100, 101]`. Both hold for every amount of fuel that lets the loop finish. -/
theorem create_mesh_half_step_overshoots {α : Type} [LinearOrderedField α] (n : ℕ) :
    CreateMesh (n + 7) (99 : α) 101 (1 / 2)
        = some [99, 99 + 1 / 2, 100, 100 + 1 / 2, 101, 101 + 1 / 2]
    ∧ ([99, 99 + 1 / 2, 100, 100 + 1 / 2, 101, 101 + 1 / 2] : List α).getLast? ≠ some 101
    ∧ CreateMesh (n + 4) (99 : α) 101 1 = some [99, 100, 101] := by
  refine ⟨?_, ?_, ?_⟩
  · simp only [CreateMesh, CreateMeshLoop]
    norm_num
  · norm_num
  · simp only [CreateMesh, CreateMeshLoop]
    norm_num

/-! ## Sentinel and unrecognised selectors in mesh pricing -/

/-- C22. Sentinel `-1` in the mesh-override helper: for a recognised selector, a mesh element
equal to `-1` does not override the named parameter, the corresponding output element being
`Price()` of the unmodified option; and the 6-argument `PriceAsCall` / `PriceAsPut` called with
all six arguments `-1` return the no-argument `PriceAsCall()` / `PriceAsPut()`. -/
theorem mesh_sentinel_keeps_option {α : Type} [Field α] [DecidableEq α] (m : Numerics α)
    (o : EuropeanOption α) (parameter_mesh : List α) (parameter : Parameter)
    (hsel : parameter ∈ [UNDERLYING, STRIKE, TIME, RATE, SIGMA, CARRY])
    (i : ℕ) (hi : i < parameter_mesh.length) (hv : parameter_mesh[i] = -1) :
    (o.PriceOverMesh m parameter_mesh parameter)[i]? = some (o.Price m)
    ∧ o.PriceAsCall6 m (-1) (-1) (-1) (-1) (-1) (-1) = o.PriceAsCall m
    ∧ o.PriceAsPut6 m (-1) (-1) (-1) (-1) (-1) (-1) = o.PriceAsPut m := by
  refine ⟨?_, (price6_single_override m o 0).1.1, (price6_single_override m o 0).1.2⟩
  rw [PriceOverMesh_eq_map m o parameter_mesh parameter hsel, List.getElem?_map,
    List.getElem?_eq_getElem hi]
  simp [hv]

/-- C22 at the demo's PUT (S=100, K=100, T=30, r=0.08, sigma=0.30), selector RATE and the
mesh `[0.05, -1]`: element 1 is the price of the unmodified option. -/
theorem mesh_sentinel_keeps_option_witness :
    ((meshPut ℝ).PriceOverMesh realNumerics [5 / 100, -1] RATE)[1]?
        = some ((meshPut ℝ).Price realNumerics)
    ∧ (meshPut ℝ).PriceAsCall6 realNumerics (-1) (-1) (-1) (-1) (-1) (-1)
        = (meshPut ℝ).PriceAsCall realNumerics
    ∧ (meshPut ℝ).PriceAsPut6 realNumerics (-1) (-1) (-1) (-1) (-1) (-1)
        = (meshPut ℝ).PriceAsPut realNumerics :=
  mesh_sentinel_keeps_option realNumerics (meshPut ℝ) [5 / 100, -1] RATE (by simp) 1
    (by simp) (by simp)

/-- C23. Unrecognised mesh selector falls through silently: when the selector is none of
UNDERLYING, STRIKE, TIME, RATE, SIGMA, CARRY, `Price(mesh, selector)` returns the empty list (the
method has no error path: it returns a plain vector). -/
theorem unrecognised_selector_empty {α : Type} [Field α] [DecidableEq α] (m : Numerics α)
    (o : EuropeanOption α) (parameter_mesh : List α) (parameter : Parameter)
    (hsel : parameter ∉ [UNDERLYING, STRIKE, TIME, RATE, SIGMA, CARRY]) :
    o.PriceOverMesh m parameter_mesh parameter = [] := by
  simp only [List.mem_cons, List.mem_singleton, List.not_mem_nil, or_false, not_or] at hsel
  obtain ⟨h0, h1, h2, h3, h4, h5⟩ := hsel
  simp only [EuropeanOption.PriceOverMesh, h0, h1, h2, h3, h4, h5, if_false]

/-- C23 at the demo's PUT and mesh `[99, 100, 101]` with the selector value 6, which is in the
range of `enum Parameter` and is none of its enumerators. -/
theorem unrecognised_selector_empty_witness :
    (meshPut ℝ).PriceOverMesh realNumerics [99, 100, 101] (6 : Parameter) = [] :=
  unrecognised_selector_empty realNumerics (meshPut ℝ) [99, 100, 101] 6 (by decide)

/-! ## Delta parity -/

/-- The standard normal CDF takes its values in `[0, 1]`. -/
theorem Phi_mem_unit (x : ℝ) : 0 ≤ Phi x ∧ Phi x ≤ 1 :=
  ⟨ProbabilityTheory.cdf_nonneg _ x, ProbabilityTheory.cdf_le_one _ x⟩

/-- C24. Delta parity: for a CALL `c` and a PUT `p` with identical S, K, T, r, sigma, b (S, K,
T, sigma positive), `c.Delta() - p.Delta() = exp((b-r)*T)`; the CALL delta lies in
`[0, exp((b-r)*T)]` and the PUT delta in `[-exp((b-r)*T), 0]`. -/
theorem delta_parity (c p : EuropeanOption ℝ)
    (hc : c.call_or_put = CallOrPut.CALL) (hp : p.call_or_put = CallOrPut.PUT)
    (hS : p.m_S = c.m_S) (hK : p.m_K = c.m_K) (hT : p.m_T = c.m_T) (hr : p.m_r = c.m_r)
    (hs : p.m_s = c.m_s) (hb : p.m_b = c.m_b)
    (_hSpos : 0 < c.m_S) (_hKpos : 0 < c.m_K) (_hTpos : 0 < c.m_T) (_hspos : 0 < c.m_s) :
    c.Delta realNumerics - p.Delta realNumerics = Real.exp ((c.m_b - c.m_r) * c.m_T)
    ∧ (0 ≤ c.Delta realNumerics
      ∧ c.Delta realNumerics ≤ Real.exp ((c.m_b - c.m_r) * c.m_T))
    ∧ (-Real.exp ((c.m_b - c.m_r) * c.m_T) ≤ p.Delta realNumerics
      ∧ p.Delta realNumerics ≤ 0) := by
  have hA : 0 < Real.exp ((c.m_b - c.m_r) * c.m_T) := Real.exp_pos _
  have hPhi := Phi_mem_unit (specD1 c.m_S c.m_K c.m_T c.m_s c.m_b)
  have hcd : c.Delta realNumerics
      = Real.exp ((c.m_b - c.m_r) * c.m_T) * Phi (specD1 c.m_S c.m_K c.m_T c.m_s c.m_b) := by
    rw [Delta_eq_spec, hc]
    simp [specDelta, specSign]
  have hpd : p.Delta realNumerics
      = -(Real.exp ((c.m_b - c.m_r) * c.m_T)
          * (1 - Phi (specD1 c.m_S c.m_K c.m_T c.m_s c.m_b))) := by
    rw [Delta_eq_spec, hp, hS, hK, hT, hr, hs, hb]
    simp [specDelta, specSign, Phi_neg]
  rw [hcd, hpd]
  refine ⟨by ring, ⟨?_, ?_⟩, ?_, ?_⟩
  · exact mul_nonneg hA.le hPhi.1
  · nlinarith [hPhi.2]
  · nlinarith [hPhi.1]
  · nlinarith [hPhi.2]

/-- C24 at the batch-1 options of `main.cpp`: S=60, K=65, T=0.25, r=0.08, sigma=0.30, STOCK
(so b = r and `exp((b-r)*T) = exp(0)`). -/
theorem delta_parity_witness :
    (batch1 ℝ CallOrPut.CALL).Delta realNumerics - (batch1 ℝ CallOrPut.PUT).Delta realNumerics
        = Real.exp ((8 / 100 - 8 / 100) * (1 / 4))
    ∧ (0 ≤ (batch1 ℝ CallOrPut.CALL).Delta realNumerics
      ∧ (batch1 ℝ CallOrPut.CALL).Delta realNumerics
          ≤ Real.exp ((8 / 100 - 8 / 100) * (1 / 4)))
    ∧ (-Real.exp ((8 / 100 - 8 / 100) * (1 / 4)) ≤ (batch1 ℝ CallOrPut.PUT).Delta realNumerics
      ∧ (batch1 ℝ CallOrPut.PUT).Delta realNumerics ≤ 0) :=
  delta_parity (batch1 ℝ CallOrPut.CALL) (batch1 ℝ CallOrPut.PUT) rfl rfl rfl rfl rfl rfl rfl
    rfl (by norm_num [batch1, EuropeanOption.construct])
    (by norm_num [batch1, EuropeanOption.construct])
    (by norm_num [batch1, EuropeanOption.construct])
    (by norm_num [batch1, EuropeanOption.construct])

end ExactPricingModels
